import Mathlib

/-!
# Verification of the agentic-memory-server storage and text core

Shallow embedding, in Lean 4, of the parts of the repository that the
checked claims are about:

* `src/modules/sqlite/*` — the SQLite persistence layer.  The database is
  modelled as an explicit record of table rows (`DB`), SQL statements are
  translated to list operations, and each store operation becomes a pure
  state-passing function.  SQLite ids are `Nat`, `REAL` columns are `ℚ`,
  timestamps are `Int` ticks.
* `src/modules/similarity/relationship-detector.ts` — the similarity
  engine, parametric in the `TextProcessor` primitives it calls.
* `src/dist/modules/similarity/text-processor.js` — the Jaccard set
  primitive.
* `src/memory-optimizer.ts` — the three text compression levels; JS
  strings become `List Char`, the regexes used by the source are
  translated to explicit character scans.

Theorems at the end settle the claims; each is stated over these
embedded definitions.
-/

namespace MemSrv

/-- JS `\s` whitespace class, restricted to the code points the repository
ever feeds it (ASCII whitespace plus NBSP). -/
def isJsWs (c : Char) : Bool :=
  c = ' ' || c = '\t' || c = '\n' || c = '\r' ||
  c = Char.ofNat 11 || c = Char.ofNat 12 || c = Char.ofNat 160

/-- JS `\w` word character class: `[A-Za-z0-9_]`. -/
def isWordChar (c : Char) : Bool :=
  (c ≥ 'a' && c ≤ 'z') || (c ≥ 'A' && c ≤ 'Z') || (c ≥ '0' && c ≤ '9') || c = '_'

/-- ASCII lower-casing, as JS `toLowerCase` acts on the ASCII range. -/
def lowerChar (c : Char) : Char :=
  if c ≥ 'A' && c ≤ 'Z' then Char.ofNat (c.toNat + 32) else c

def lowerList (l : List Char) : List Char := l.map lowerChar

def lowerStr (s : String) : String := (lowerList s.data).asString

/-- Substring containment on character lists. -/
def containsSub (l pat : List Char) : Bool :=
  l.tails.any (fun t => pat.isPrefixOf t)

/-- SQL `x LIKE '%pat%'`: substring match, case-insensitive on ASCII
(SQLite default `LIKE` semantics). -/
def sqlLike (s pat : String) : Bool :=
  containsSub (lowerList s.data) (lowerList pat.data)

/-!
### Kernel-computable rational arithmetic

JS numbers carrying scores and weights are modelled as `ℚ`.  The `Rat`
field operations of the library are `@[irreducible]`, which blocks
`decide`-style evaluation on concrete inputs, so the embedding computes
with the following `mkRat`-based operations; the `q…_eq` bridge lemmas
prove them equal to the standard ones, keeping every theorem statement in
ordinary rational algebra. -/

def qAdd (a b : ℚ) : ℚ :=
  mkRat (a.num * b.den + b.num * a.den) (a.den * b.den)

def qSub (a b : ℚ) : ℚ :=
  mkRat (a.num * b.den - b.num * a.den) (a.den * b.den)

def qMul (a b : ℚ) : ℚ := mkRat (a.num * b.num) (a.den * b.den)

def qDiv (a b : ℚ) : ℚ :=
  if 0 ≤ b.num then mkRat (a.num * b.den) (a.den * b.num.toNat)
  else mkRat (-(a.num * b.den)) (a.den * (-b.num).toNat)

def qAbs (a : ℚ) : ℚ := mkRat (a.num.natAbs : Int) a.den

def qSum (l : List ℚ) : ℚ := l.foldr qAdd 0

theorem qAdd_eq (a b : ℚ) : qAdd a b = a + b := by
  unfold qAdd
  rw [Rat.mkRat_eq_div]
  have ha : ((a.den : ℚ)) ≠ 0 := by exact_mod_cast a.den_nz
  have hb : ((b.den : ℚ)) ≠ 0 := by exact_mod_cast b.den_nz
  conv_rhs => rw [← Rat.num_div_den a, ← Rat.num_div_den b]
  push_cast
  field_simp
  try ring

theorem qSub_eq (a b : ℚ) : qSub a b = a - b := by
  unfold qSub
  rw [Rat.mkRat_eq_div]
  have ha : ((a.den : ℚ)) ≠ 0 := by exact_mod_cast a.den_nz
  have hb : ((b.den : ℚ)) ≠ 0 := by exact_mod_cast b.den_nz
  conv_rhs => rw [← Rat.num_div_den a, ← Rat.num_div_den b]
  push_cast
  field_simp
  try ring

theorem qMul_eq (a b : ℚ) : qMul a b = a * b := by
  unfold qMul
  rw [Rat.mkRat_eq_div]
  have ha : ((a.den : ℚ)) ≠ 0 := by exact_mod_cast a.den_nz
  have hb : ((b.den : ℚ)) ≠ 0 := by exact_mod_cast b.den_nz
  conv_rhs => rw [← Rat.num_div_den a, ← Rat.num_div_den b]
  push_cast
  field_simp
  try ring

theorem qAbs_eq (a : ℚ) : qAbs a = |a| := by
  unfold qAbs
  rw [Rat.mkRat_eq_div]
  have ha : ((a.den : ℚ)) ≠ 0 := by exact_mod_cast a.den_nz
  rcases abs_cases a with ⟨h1, h2⟩ | ⟨h1, h2⟩
  · have hnum : (0 : Int) ≤ a.num := by
      rw [← Rat.num_nonneg] at h2
      exact h2
    rw [h1, Int.natAbs_of_nonneg hnum]
    exact Rat.num_div_den a
  · have hnum : a.num ≤ 0 := Rat.num_nonpos.mpr h2.le
    rw [h1, Int.ofNat_natAbs_of_nonpos hnum]
    push_cast
    rw [neg_div]
    rw [Rat.num_div_den a]

theorem qDiv_eq (a b : ℚ) : qDiv a b = a / b := by
  unfold qDiv
  have ha : ((a.den : ℚ)) ≠ 0 := by exact_mod_cast a.den_nz
  by_cases hb : b.num = 0
  · have hb0 : b = 0 := by
      rwa [Rat.num_eq_zero] at hb
    rw [hb0]
    simp [Rat.mkRat_zero]
  · by_cases hpos : 0 ≤ b.num
    · rw [if_pos hpos, Rat.mkRat_eq_div]
      have htn : ((b.num.toNat : ℚ)) = (b.num : ℚ) := by
        exact_mod_cast Int.toNat_of_nonneg hpos
      have hbq : ((b.num : ℚ)) ≠ 0 := by exact_mod_cast hb
      push_cast
      rw [htn]
      conv_rhs => rw [← Rat.num_div_den a, ← Rat.num_div_den b]
      field_simp
      try ring
    · rw [if_neg hpos, Rat.mkRat_eq_div]
      have hneg : (0 : Int) ≤ -b.num := by omega
      have htn : (((-b.num).toNat : ℚ)) = ((-b.num : Int) : ℚ) := by
        exact_mod_cast Int.toNat_of_nonneg hneg
      have hbq : ((b.num : ℚ)) ≠ 0 := by exact_mod_cast hb
      push_cast
      push_cast at htn
      rw [htn]
      conv_rhs => rw [← Rat.num_div_den a, ← Rat.num_div_den b]
      field_simp
      try ring

theorem qSum_eq (l : List ℚ) : qSum l = l.sum := by
  unfold qSum
  induction l with
  | nil => simp
  | cons x xs ih =>
      simp only [List.foldr_cons, List.sum_cons]
      rw [qAdd_eq]
      exact congrArg (x + ·) ih

/-- Remove trailing whitespace. -/
def trimRight : List Char → List Char
  | [] => []
  | c :: rest =>
      match trimRight rest with
      | [] => if isJsWs c then [] else [c]
      | r => c :: r

/-- JS `String.prototype.trim` on character lists: strip leading and
trailing whitespace. -/
def jsTrimList (l : List Char) : List Char := trimRight (l.dropWhile isJsWs)

def jsTrim (s : String) : String := (jsTrimList s.data).asString

/-!
## TextProcessor.calculateSetSimilarity (text-processor.js, lines 114-122)

JS `Set`s of strings become `Finset String`; `size` is `card`.
-/

/-- `TextProcessor.calculateSetSimilarity`: Jaccard similarity of two sets,
with the source's explicit empty-set cases. -/
def calculateSetSimilarity (set1 set2 : Finset String) : ℚ :=
  if set1.card = 0 ∧ set2.card = 0 then 1
  else if set1.card = 0 ∨ set2.card = 0 then 0
  else ((set1 ∩ set2).card : ℚ) / ((set1 ∪ set2).card : ℚ)

/-!
## The SQLite store (sqlite-connection.js, sqlite-branch-operations.ts,
sqlite-entity-operations.ts, sqlite-relation-operations.ts)

The database file is modelled as a record of table rows.  `AUTOINCREMENT`
columns are modelled by explicit `next…Id` counters; `DATETIME` defaults
are claim-irrelevant and fixed at tick `0`; `REAL` is `ℚ`.
-/

/-- Row of `memory_branches`. -/
structure BranchRow where
  id : Nat
  name : String
  purpose : String
deriving Repr, DecidableEq

/-- Row of `entities` (claim-relevant columns). -/
structure EntityRow where
  id : Nat
  name : String
  entityType : String
  branchId : Nat
  status : String
  statusReason : Option String
  originalContent : String
  optimizedContent : String
  lastAccessed : Int
deriving Repr, DecidableEq

/-- Row of `observations`. -/
structure ObsRow where
  id : Nat
  entityId : Nat
  content : String
  optimizedContent : String
  seq : Int
deriving Repr, DecidableEq

/-- Row of `relations`; uniqueness key is
`(from_entity_id, to_entity_id, relation_type)` per the schema. -/
structure RelRow where
  fromEntityId : Nat
  toEntityId : Nat
  relationType : String
  branchId : Nat
deriving Repr, DecidableEq

/-- Row of `keywords`. -/
structure KeywordRow where
  keyword : String
  entityId : Nat
  weight : ℚ
  context : String
deriving Repr, DecidableEq

/-- Row of `cross_references`; only the columns relevant to the
branch foreign key are kept. -/
structure CrossRefRow where
  fromEntityId : Nat
  targetBranchId : Nat
  targetEntityName : String
deriving Repr, DecidableEq

/-- The database state.  The FTS shadow table is kept in sync with
`entities` by triggers, so it is not stored separately: the FTS strategy
reads `name` / `entity_type` / `optimized_content` straight off
`entities`. -/
structure DB where
  branches : List BranchRow
  entities : List EntityRow
  observations : List ObsRow
  relations : List RelRow
  keywords : List KeywordRow
  crossReferences : List CrossRefRow
  nextBranchId : Nat
  nextEntityId : Nat
  nextObsId : Nat
deriving Repr, DecidableEq

/-- API-level relation record (`Relation` in memory-types): `from`, `to`,
`relationType`.  `from` is a Lean keyword, hence `fromName` / `toName`. -/
structure Relation where
  fromName : String
  toName : String
  relationType : String
deriving Repr, DecidableEq

/-- JS `branchName || "main"` in `SQLiteConnection.getBranchId`:
an absent or empty branch name falls back to `main`. -/
def resolveBranchName : Option String → String
  | none => "main"
  | some s => if s = "" then "main" else s

/-- `SQLiteConnection.getBranchId` (sqlite-connection.js, lines 171-181):
look the branch up by name; when absent, insert a fresh
`Auto-created branch` row and return its id. -/
def getBranchId (db : DB) (branchName : Option String) : Nat × DB :=
  let name := resolveBranchName branchName
  match db.branches.find? (fun b => b.name == name) with
  | some b => (b.id, db)
  | none =>
      (db.nextBranchId,
        { db with
            branches := db.branches ++
              [⟨db.nextBranchId, name, "Auto-created branch: " ++ name⟩],
            nextBranchId := db.nextBranchId + 1 })

/-- Is branch `bid` still referenced by a child row?  `initialize` runs
`PRAGMA foreign_keys = ON`, and the foreign keys pointing at
`memory_branches(id)` — `entities.branch_id`, `relations.branch_id` and
`cross_references.target_branch_id` — carry no `ON DELETE` action (the
cascades in the schema are only on keys referencing `entities(id)`), so
`DELETE FROM memory_branches WHERE id = ?` fails on a referenced row. -/
def branchReferenced (db : DB) (bid : Nat) : Bool :=
  db.entities.any (fun e => e.branchId == bid) ||
  db.relations.any (fun r => r.branchId == bid) ||
  db.crossReferences.any (fun c => c.targetBranchId == bid)

/-- `SQLiteBranchOperations.deleteBranch`: refuse `main`, otherwise resolve
the id (auto-creating a missing branch) and run the `DELETE`, which
raises a FOREIGN KEY constraint error when the branch still has
referencing rows and removes the row otherwise. -/
def deleteBranch (db : DB) (branchName : String) : Except String DB :=
  if branchName = "main" then .error "Cannot delete main branch"
  else
    let (bid, db1) := getBranchId db (some branchName)
    if branchReferenced db1 bid then .error "FOREIGN KEY constraint failed"
    else .ok { db1 with branches := db1.branches.filter (fun b => b.id ≠ bid) }

/-- `SELECT id FROM entities WHERE name = ? AND branch_id = ?` via
`getQuery` (first matching row in table order). -/
def findEntityRow (db : DB) (name : String) (bid : Nat) : Option EntityRow :=
  db.entities.find? (fun e => e.name == name && e.branchId == bid)

/-- `SELECT ... FROM entities WHERE id = ?` — the join lookup used when
relation rows are joined back to entity names. -/
def entById (db : DB) (i : Nat) : Option EntityRow :=
  db.entities.find? (fun e => e.id == i)

/-!
### SQLiteRelationOperations.createRelations (lines 12-83)
-/

/-- The relations-table uniqueness key a batch item would insert, when the
item has nonblank fields (JS truthiness on strings) and both endpoints
resolve in the branch. -/
def relKeyOf (ents : List EntityRow) (bid : Nat) (rel : Relation) :
    Option (Nat × Nat × String) :=
  if rel.fromName = "" || rel.toName = "" || rel.relationType = "" then none
  else
    match ents.find? (fun e => e.name == rel.fromName && e.branchId == bid),
      ents.find? (fun e => e.name == rel.toName && e.branchId == bid) with
    | some fe, some te => some (fe.id, te.id, rel.relationType)
    | _, _ => none

/-- Does a relation row with this uniqueness key exist? -/
def hasRelKey (rels : List RelRow) (k : Nat × Nat × String) : Bool :=
  rels.any (fun r =>
    r.fromEntityId == k.1 && r.toEntityId == k.2.1 && r.relationType == k.2.2)

/-- `INSERT OR IGNORE INTO relations …`. -/
def insertRelIgnore (rels : List RelRow) (k : Nat × Nat × String) (bid : Nat) :
    List RelRow :=
  if hasRelKey rels k then rels else rels ++ [⟨k.1, k.2.1, k.2.2, bid⟩]

/-- One iteration of the `createRelations` loop: skip invalid items, skip
items with a missing endpoint, insert-or-ignore, and push the item onto
`createdRelations` whenever both endpoints existed. -/
def createRelationsStep (bid : Nat) (acc : DB × List Relation) (rel : Relation) :
    DB × List Relation :=
  match relKeyOf acc.1.entities bid rel with
  | none => acc
  | some k =>
      ({ acc.1 with relations := insertRelIgnore acc.1.relations k bid },
        acc.2 ++ [rel])

/-- `SQLiteRelationOperations.createRelations`: early-return on an empty
batch, resolve the branch, then run the loop. -/
def createRelations (db : DB) (relations : List Relation)
    (branchName : Option String) : DB × List Relation :=
  if relations.isEmpty then (db, [])
  else
    let (bid, db1) := getBranchId db branchName
    relations.foldl (createRelationsStep bid) (db1, [])

/-!
### SQLiteEntityOperations.addObservations (lines 330-399)
-/

/-- One batch item for `addObservations`. -/
structure ObsInput where
  entityName : String
  contents : List String
deriving Repr, DecidableEq

/-- One result item of `addObservations`. -/
structure ObsResult where
  entityName : String
  addedObservations : List String
deriving Repr, DecidableEq

/-- `SELECT COALESCE(MAX(sequence_order), -1) as max_seq FROM observations
WHERE entity_id = ?`. -/
def maxSeqOf (db : DB) (eid : Nat) : Int :=
  match ((db.observations.filter (fun o => o.entityId == eid)).map (·.seq)).max? with
  | none => -1
  | some m => m

/-- The indexed insert loop over `obs.contents`: blank contents (JS
`content && content.trim()`) are skipped but still advance the loop index,
so `sequence_order` is `startSeq + i` with the batch index `i`. -/
def addObsLoop (eid : Nat) (startSeq : Int) :
    Nat → DB → List String → DB × List String
  | _, db, [] => (db, [])
  | i, db, content :: rest =>
      if content ≠ "" ∧ jsTrim content ≠ "" then
        let db' :=
          { db with
              observations := db.observations ++
                [⟨db.nextObsId, eid, content, content, startSeq + i⟩],
              nextObsId := db.nextObsId + 1 }
        let (db'', added) := addObsLoop eid startSeq (i + 1) db' rest
        (db'', content :: added)
      else addObsLoop eid startSeq (i + 1) db rest

/-- One batch item of `addObservations`: resolve the entity (skip silently
when absent), read the max sequence, and run the loop.  `startSeq` is the
JS `(maxSeq?.max_seq || -1) + 1`: the `||` treats a legitimate maximum of
`0` as falsy and replaces it with `-1`. -/
def addObservationsStep (bid : Nat) (acc : DB × List ObsResult)
    (obs : ObsInput) : DB × List ObsResult :=
  match findEntityRow acc.1 obs.entityName bid with
  | none => acc
  | some e =>
      let m := maxSeqOf acc.1 e.id
      let startSeq : Int := (if m = 0 then -1 else m) + 1
      let (db', added) := addObsLoop e.id startSeq 0 acc.1 obs.contents
      (db', acc.2 ++ [⟨obs.entityName, added⟩])

/-- `SQLiteEntityOperations.addObservations`. -/
def addObservations (db : DB) (observations : List ObsInput)
    (branchName : Option String) : DB × List ObsResult :=
  let (bid, db1) := getBranchId db branchName
  observations.foldl (addObservationsStep bid) (db1, [])

/-!
### SQLiteEntityOperations.createEntities / createSingleEntity
(lines 12-30 and 213-328)
-/

/-- API-level entity input (memory-types `Entity` plus the ad-hoc
`_keywordData` payload; the ad-hoc `crossRefs` payload is claim-irrelevant
and omitted). -/
structure EntityInput where
  name : String
  entityType : String
  observations : List String
  status : Option String
  statusReason : Option String
  keywordData : List String
deriving Repr, DecidableEq

/-- The entity record `createSingleEntity` returns (its claim-relevant
fields). -/
structure CreatedEntity where
  name : String
  entityType : String
  observations : List String
  status : String
deriving Repr, DecidableEq

/-- A byte-level JSON string escape (quote and backslash; the inputs the
claims touch contain no control characters). -/
def jsonEscape (s : String) : String :=
  ⟨s.data.foldr (fun c acc =>
      if c = '"' ∨ c = '\\' then '\\' :: c :: acc else c :: acc) []⟩

def jsonStr (s : String) : String := "\"" ++ jsonEscape s ++ "\""

def jsonArr (l : List String) : String :=
  "[" ++ String.intercalate "," (l.map jsonStr) ++ "]"

/-- `JSON.stringify({ name, entityType, observations })` as built in
`createSingleEntity`. -/
def mkOriginalContent (name entityType : String) (obs : List String) : String :=
  "\x7b\"name\":" ++ jsonStr name ++ ",\"entityType\":" ++ jsonStr entityType ++
    ",\"observations\":" ++ jsonArr obs ++ "\x7d"

/-- JS `entity.status || "active"`. -/
def effStatus : Option String → String
  | none => "active"
  | some s => if s = "" then "active" else s

/-- Insert the `sequence_order`-numbered observation rows of a freshly
created entity (`i` runs over the valid observations). -/
def insertObsRows (eid : Nat) : Nat → DB → List String → DB
  | _, db, [] => db
  | i, db, content :: rest =>
      insertObsRows eid (i + 1)
        { db with
            observations := db.observations ++
              [⟨db.nextObsId, eid, content, content, (i : Int)⟩],
            nextObsId := db.nextObsId + 1 }
        rest

/-- Insert the `_keywordData` keyword rows (trimmed, lower-cased, blank
entries skipped, weight `1.0`, context `entity_content`). -/
def insertKeywordRows (eid : Nat) (db : DB) (kws : List String) : DB :=
  { db with
      keywords := db.keywords ++
        (kws.filter (fun k => jsTrim k ≠ "")).map
          (fun k => ⟨lowerStr (jsTrim k), eid, 1, "entity_content"⟩) }

/-- `SQLiteEntityOperations.createSingleEntity`: sanitise the name, type
and observations (a blank name becomes `"Unnamed Entity"`, a blank type
`"Unknown"`), reject an existing `(name, branch)` pair, then insert the
entity row, its observations and its keywords. -/
def createSingleEntity (db : DB) (bid : Nat) (e : EntityInput) :
    Except String (DB × CreatedEntity) :=
  let validName := if jsTrim e.name = "" then "Unnamed Entity" else jsTrim e.name
  let validType :=
    if jsTrim e.entityType = "" then "Unknown" else jsTrim e.entityType
  let validObs := e.observations.filter (fun o => jsTrim o ≠ "")
  if db.entities.any (fun x => x.name == validName && x.branchId == bid) then
    .error ("Entity \"" ++ validName ++ "\" already exists")
  else
    let content := mkOriginalContent validName validType validObs
    let row : EntityRow :=
      ⟨db.nextEntityId, validName, validType, bid, effStatus e.status,
        e.statusReason, content, content, 0⟩
    let db1 :=
      { db with
          entities := db.entities ++ [row],
          nextEntityId := db.nextEntityId + 1 }
    let db2 := insertObsRows row.id 0 db1 validObs
    let db3 := insertKeywordRows row.id db2 e.keywordData
    .ok (db3, ⟨validName, validType, validObs, effStatus e.status⟩)

/-- `SQLiteEntityOperations.createEntities`: resolve the branch, then try
each entity, skipping (with a logged error) the ones that fail. -/
def createEntities (db : DB) (entities : List EntityInput)
    (branchName : Option String) : DB × List CreatedEntity :=
  let (bid, db1) := getBranchId db branchName
  entities.foldl
    (fun acc e =>
      match createSingleEntity acc.1 bid e with
      | .ok (db', ce) => (db', acc.2 ++ [ce])
      | .error _ => acc)
    (db1, [])

/-!
## SQLiteSearchOperations (sqlite-search-operations.ts)
-/

/-- Generalised JS `String.split` on a character-class separator run
(`/[…]+/`): maximal separator runs split the string, a leading or trailing
separator produces an empty segment, and an empty input yields `[""]`. -/
def jsSplitPred (sep : Char → Bool) (l : List Char) : List (List Char) :=
  (l.foldr
    (fun c acc =>
      if sep c then
        if acc.2 then acc else ([] :: acc.1, true)
      else
        match acc.1 with
        | s :: ss => ((c :: s) :: ss, false)
        | [] => ([[c]], false))
    (([[]] : List (List Char)), false)).1

/-- The stop-word list of `prepareSearchTerms`. -/
def searchStopWords : List String :=
  ["the", "and", "or", "but", "in", "on", "at", "to", "for", "of", "with", "by"]

/-- JS `new Set(terms)` keeps first occurrences in order. -/
def dedupFirstAux (seen : List String) : List String → List String
  | [] => []
  | x :: xs =>
      if seen.contains x then dedupFirstAux seen xs
      else x :: dedupFirstAux (x :: seen) xs

def dedupFirst (l : List String) : List String := dedupFirstAux [] l

/-- `SQLiteSearchOperations.prepareSearchTerms` (lines 66-90): lower-case,
split on `[\s\-_,./]+`, keep length > 1, trim, dedupe, drop stop words. -/
def prepareSearchTerms (query : String) : List String :=
  let pieces :=
    (jsSplitPred
      (fun c => isJsWs c || c = '-' || c = '_' || c = ',' || c = '.' || c = '/')
      (lowerList query.data)).map List.asString
  let terms := (pieces.filter (fun t => t.length > 1)).map jsTrim
  (dedupFirst terms).filter (fun t => ¬ searchStopWords.contains t)

/-- `includeStatuses && includeStatuses.length > 0 ? includeStatuses :
["active"]` — computed identically inside each strategy. -/
def effStatuses (includeStatuses : List String) : List String :=
  if includeStatuses.isEmpty then ["active"] else includeStatuses

/-- The branch predicate each strategy appends when a concrete branch id
was resolved (`branchId !== null`). -/
def branchOk (bid : Option Nat) (e : EntityRow) : Bool :=
  match bid with
  | some b => e.branchId == b
  | none => true

/-- A strategy result row: the entity row plus its `relevance_score`. -/
structure SearchRow where
  entity : EntityRow
  score : ℚ
deriving Repr, DecidableEq

/-- Stable insertion (descending in `f`) — the result a stable JS
`sort((a, b) => f(b) - f(a))` produces.  Under the `foldr` below, earlier
list elements are inserted last, so an insert goes **before** equal keys
to preserve their original relative order. -/
def insertDescBy (f : α → ℚ) (r : α) : List α → List α
  | [] => [r]
  | x :: xs => if f r ≥ f x then r :: x :: xs else x :: insertDescBy f r xs

def sortDescBy (f : α → ℚ) (l : List α) : List α := l.foldr (insertDescBy f) []

/-- Stable insertion sort by an arbitrary strict-precedence test — used
for SQL `ORDER BY` with a two-column key. -/
def insertPrecBy (prec : α → α → Bool) (r : α) : List α → List α
  | [] => [r]
  | x :: xs => if prec x r then x :: insertPrecBy prec r xs else r :: x :: xs

def sortPrecBy (prec : α → α → Bool) (l : List α) : List α :=
  l.foldr (insertPrecBy prec) []

def obsCountOf (db : DB) (eid : Nat) : Nat :=
  (db.observations.filter (fun o => o.entityId == eid)).length

def obsRowsOf (db : DB) (eid : Nat) : List ObsRow :=
  db.observations.filter (fun o => o.entityId == eid)

def maxWeightOf : List KeywordRow → ℚ
  | [] => 0
  | k :: ks => ks.foldl (fun m x => max m x.weight) k.weight

/-- `SQLiteSearchOperations.searchByKeywords` (lines 152-195).  The SQL
left-joins observations and keywords, keeps only rows whose keyword
matches some term, filters branch and status, groups by entity and scores
`COUNT(k.id) * MAX(k.weight)`; the observation join multiplies the count
by `max 1 (#observations)`.  `ORDER BY relevance_score DESC` (SQL leaves
the order of ties unspecified; the model keeps table order for ties). -/
def searchByKeywords (db : DB) (terms : List String) (bid : Option Nat)
    (includeStatuses : List String) : List SearchRow :=
  let statuses := effStatuses includeStatuses
  let rows := db.entities.filterMap (fun e =>
    let K := db.keywords.filter
      (fun k => k.entityId == e.id && terms.any (fun t => sqlLike k.keyword t))
    if K.isEmpty then none
    else if branchOk bid e && statuses.contains e.status then
      some ⟨e, qMul (((max 1 (obsCountOf db e.id) * K.length : Nat)) : ℚ)
        (maxWeightOf K)⟩
    else none)
  sortDescBy (fun r => r.score) rows

/-- fts5 `unicode61` tokens: maximal alphanumeric runs, case-folded. -/
def ftsTokens (s : String) : List String :=
  ((jsSplitPred (fun c => ¬ c.isAlphanum) (lowerList s.data)).filter
      (fun t => t ≠ [])).map List.asString

/-- Is `terms.join(" OR ")` a well-formed MATCH query?  The source
catches the engine error and returns the empty list otherwise. -/
def ftsQueryOk (terms : List String) : Bool :=
  terms.all (fun t => t ≠ "" && t.data.all Char.isAlphanum)

/-- Does the FTS shadow row of `e` match the OR-of-terms query? -/
def ftsRowMatch (e : EntityRow) (terms : List String) : Bool :=
  terms.any (fun t =>
    (ftsTokens e.name).contains t || (ftsTokens e.entityType).contains t ||
      (ftsTokens e.optimizedContent).contains t)

/-- `SQLiteSearchOperations.searchByFTS` (lines 197-240).  Branch and
status filters as in the SQL; the engine's bm25 rank ordering is not
modelled (rows stay in table order) — the merge step overwrites the rank,
so only row membership is consumed downstream.  A malformed MATCH query
raises and the strategy returns `[]`. -/
def searchByFTS (db : DB) (terms : List String) (bid : Option Nat)
    (includeStatuses : List String) : List SearchRow :=
  let statuses := effStatuses includeStatuses
  if ftsQueryOk terms then
    db.entities.filterMap (fun e =>
      if ftsRowMatch e terms && branchOk bid e && statuses.contains e.status then
        some ⟨e, 0⟩
      else none)
  else []

/-- `ORDER BY relevance_score DESC, e.last_accessed DESC`. -/
def likeOrder (a b : SearchRow) : Bool :=
  a.score > b.score ||
    (a.score == b.score && a.entity.lastAccessed > b.entity.lastAccessed)

/-- The name/type half of the LIKE `WHERE` clause. -/
def likeNameTypeHit (terms : List String) (e : EntityRow) : Bool :=
  terms.any (fun t => sqlLike e.name t || sqlLike e.entityType t)

/-- The observation rows of `e` whose content matches some term. -/
def likeMatching (db : DB) (terms : List String) (e : EntityRow) :
    List ObsRow :=
  (obsRowsOf db e.id).filter (fun o => terms.any (fun t => sqlLike o.content t))

/-- The surviving joined row SQLite's bare `o.content` column is read
from: when the name/type matched, all observation rows survive the
`WHERE`; otherwise only the matching ones do (modelled as the first in
table order — SQLite leaves the pick unspecified). -/
def likeChosen (db : DB) (terms : List String) (e : EntityRow) :
    Option ObsRow :=
  if likeNameTypeHit terms e then (obsRowsOf db e.id).head?
  else (likeMatching db terms e).head?

/-- The LIKE relevance score: per term `name LIKE → 10 / entity_type LIKE
→ 8 / 0`, plus per term `content LIKE → 3` on the chosen row. -/
def likeTotal (db : DB) (terms : List String) (e : EntityRow) : ℚ :=
  qAdd
    (qSum (terms.map (fun t =>
      if sqlLike e.name t then (10 : ℚ)
      else if sqlLike e.entityType t then 8 else 0)))
    (match likeChosen db terms e with
      | none => 0
      | some o =>
          qSum (terms.map (fun t => if sqlLike o.content t then (3 : ℚ) else 0)))

/-- `SQLiteSearchOperations.searchByLike` (lines 242-321).  Membership is
the SQL `WHERE`: a name/type substring hit or some observation-content
hit, plus branch and status.  The per-group score is `likeTotal`, kept
when positive (`HAVING`), ordered by score then `last_accessed`,
both descending. -/
def searchByLike (db : DB) (terms : List String) (bid : Option Nat)
    (includeStatuses : List String) : List SearchRow :=
  let statuses := effStatuses includeStatuses
  let rows := db.entities.filterMap (fun e =>
    if (likeNameTypeHit terms e || !(likeMatching db terms e).isEmpty) &&
        branchOk bid e && statuses.contains e.status then
      if likeTotal db terms e > 0 then some ⟨e, likeTotal db terms e⟩ else none
    else none)
  sortPrecBy likeOrder rows

/-- One step of the merge `Map`: an already-seen entity id gets the bonus
added to its stored score, a new one is appended with its score
overwritten to the bonus (`{ ...result, relevance_score: bonus }`). -/
def mergeAdd (bonus : ℚ) (m : List SearchRow) (r : SearchRow) : List SearchRow :=
  if m.any (fun x => x.entity.id == r.entity.id) then
    m.map (fun x =>
      if x.entity.id == r.entity.id then { x with score := qAdd x.score bonus }
      else x)
  else m ++ [{ r with score := bonus }]

/-- `SQLiteSearchOperations.executeEnhancedSearch` (lines 92-150): run the
three strategies, merge by entity id with bonuses 15 / 10 / 5, keep
positive scores, sort by `relevance_score` descending (JS stable sort)
and truncate to 50. -/
def executeEnhancedSearch (db : DB) (terms : List String) (bid : Option Nat)
    (includeStatuses : List String) : List SearchRow :=
  if terms.isEmpty then []
  else
    let kw := searchByKeywords db terms bid includeStatuses
    let fts := searchByFTS db terms bid includeStatuses
    let like := searchByLike db terms bid includeStatuses
    let m1 := kw.map (fun r => { r with score := qAdd r.score 15 })
    let m2 := fts.foldl (mergeAdd 10) m1
    let m3 := like.foldl (mergeAdd 5) m2
    (sortDescBy (fun r => r.score) (m3.filter (fun r => r.score > 0))).take 50

/-- The branch scope of `performSearch`:
`branchName && branchName !== "*" ? await getBranchId(branchName) : null`
(an empty string is falsy in JS). -/
def searchScope (db : DB) (branchName : Option String) : Option Nat × DB :=
  match branchName with
  | some s =>
      if s ≠ "" ∧ s ≠ "*" then
        ((some (getBranchId db (some s)).1), (getBranchId db (some s)).2)
      else ((none : Option Nat), db)
  | none => ((none : Option Nat), db)

/-- `SQLiteSearchOperations.performSearch` (lines 44-64): resolve the
branch unless it is `"*"` (or empty, which JS treats as falsy), prepare
terms, run the enhanced search. -/
def performSearch (db : DB) (query : String) (branchName : Option String)
    (includeStatuses : List String) : List SearchRow × DB :=
  (executeEnhancedSearch (searchScope db branchName).2 (prepareSearchTerms query)
    (searchScope db branchName).1 includeStatuses,
   (searchScope db branchName).2)

/-- `SQLiteRelationOperations.getRelationsForEntities` (lines 134-167):
join both endpoints back to names and keep rows where the from-name
**or** the to-name is in the requested set, scoped to the branch when a
branch id is given. -/
def getRelationsForEntities (db : DB) (entityNames : List String)
    (bid : Option Nat) : List Relation :=
  if entityNames.isEmpty then []
  else
    db.relations.filterMap (fun r =>
      match entById db r.fromEntityId, entById db r.toEntityId with
      | some ef, some et =>
          if (entityNames.contains ef.name || entityNames.contains et.name) &&
              (match bid with | some b => r.branchId == b | none => true) then
            some ⟨ef.name, et.name, r.relationType⟩
          else none
      | _, _ => none)

/-- The graph a search returns.  `convertRowsToEntities` merely projects
row columns into the API record; the model returns the entity rows
themselves (the claim-irrelevant `crossRefs` lookup is omitted). -/
structure KnowledgeGraph where
  entities : List EntityRow
  relations : List Relation
deriving Repr, DecidableEq

/-- The branch scope of the relation fetch in `searchEntities`:
`branchName ? await getBranchId(branchName) : undefined` — note that this
resolves `"*"` too, auto-creating a branch literally named `*`. -/
def relationScope (db : DB) (branchName : Option String) : Option Nat × DB :=
  match branchName with
  | some s =>
      if s ≠ "" then
        ((some (getBranchId db (some s)).1), (getBranchId db (some s)).2)
      else ((none : Option Nat), db)
  | none => ((none : Option Nat), db)

/-- `SQLiteSearchOperations.searchEntities` (lines 17-42): run the search,
then — when any entity was found — fetch relations for the found names,
resolving the branch again (including for `"*"`, which auto-creates a
branch of that name). -/
def searchEntities (db : DB) (query : String) (branchName : Option String)
    (includeStatuses : List String) : KnowledgeGraph × DB :=
  let pr := performSearch db query branchName includeStatuses
  let entities := pr.1.map (·.entity)
  if entities.isEmpty then (⟨[], []⟩, pr.2)
  else
    (⟨entities,
      getRelationsForEntities (relationScope pr.2 branchName).2
        (entities.map (·.name)) (relationScope pr.2 branchName).1⟩,
     (relationScope pr.2 branchName).2)

/-!
## RelationshipDetector (relationship-detector.ts)

The detector calls three `TextProcessor` primitives; the embedding is
parametric in them (`TextProcessorPrims`), exactly as the class holds a
`textProcessor` field.
-/

/-- API entity as the detector consumes it. -/
structure SimEntity where
  name : String
  entityType : String
  observations : List String
  status : Option String
deriving Repr, DecidableEq

/-- The `TextProcessor` methods `calculateEntitySimilarity` consumes. -/
structure TextProcessorPrims where
  sentenceSim : String → String → ℚ
  semanticSim : String → String → ℚ
  patternScore : String → String → ℚ

inductive Confidence | high | medium | low
deriving Repr, DecidableEq

/-- `RelationshipDetector.calculateTypeSimilarity`. -/
def calculateTypeSimilarity (tp : TextProcessorPrims) (e1 e2 : SimEntity) : ℚ :=
  if e1.entityType = e2.entityType then 1
  else tp.sentenceSim e1.entityType e2.entityType

def joinSpace (l : List String) : String := String.intercalate " " l

/-- `RelationshipDetector.calculateContentSimilarity`: neutral `0.3` when
either side's joined observations are empty. -/
def calculateContentSimilarity (tp : TextProcessorPrims) (e1 e2 : SimEntity) : ℚ :=
  let c1 := joinSpace e1.observations
  let c2 := joinSpace e2.observations
  if c1 = "" ∨ c2 = "" then mkRat 3 10 else tp.semanticSim c1 c2

/-- `RelationshipDetector.calculateStructuralSimilarity`. -/
def calculateStructuralSimilarity (e1 e2 : SimEntity) : ℚ :=
  let o1 := e1.observations.length
  let o2 := e2.observations.length
  let countPart : ℚ :=
    if 0 < o1 ∧ 0 < o2 then
      qMul (qSub 1 (qDiv (qAbs (qSub (o1 : ℚ) (o2 : ℚ)))
        (max (o1 : ℚ) (o2 : ℚ)))) (mkRat 2 5)
    else 0
  let statusPart : ℚ := if e1.status = e2.status then mkRat 3 10 else 0
  min (qAdd countPart statusPart) 1

/-- The weighted combination of the five component scores
(`0.35·name + 0.20·type + 0.25·content + 0.15·pattern + 0.05·structural`). -/
def weightedScore (tp : TextProcessorPrims) (e1 e2 : SimEntity) : ℚ :=
  qAdd (qAdd (qAdd (qAdd
    (qMul (mkRat 7 20) (tp.sentenceSim e1.name e2.name))
    (qMul (mkRat 1 5) (calculateTypeSimilarity tp e1 e2)))
    (qMul (mkRat 1 4) (calculateContentSimilarity tp e1 e2)))
    (qMul (mkRat 3 20) (tp.patternScore e1.name e2.name)))
    (qMul (mkRat 1 20) (calculateStructuralSimilarity e1 e2))

/-- `RelationshipDetector.calculateEntitySimilarity`: the weighted sum
clamped to `1`. -/
def calculateEntitySimilarity (tp : TextProcessorPrims) (e1 e2 : SimEntity) : ℚ :=
  min (weightedScore tp e1 e2) 1

/-- `RelationshipDetector.determineConfidence`. -/
def determineConfidence (similarity : ℚ) : Confidence :=
  if similarity ≥ mkRat 17 20 then .high
  else if similarity ≥ mkRat 3 4 then .medium
  else .low

/-- `RelationshipDetector.inferRelationshipType` (reasoning strings
dropped). -/
def inferRelationshipType (e1 e2 : SimEntity) (similarity : ℚ) : String :=
  let name1 := lowerStr e1.name
  let name2 := lowerStr e2.name
  if containsSub name1.data name2.data || containsSub name2.data name1.data then
    if name1.length > name2.length then "contains" else "part_of"
  else if lowerStr e1.entityType = lowerStr e2.entityType then
    if similarity > mkRat 9 10 then "similar_to" else "related_to"
  else if similarity > mkRat 9 10 then "closely_related"
  else "related_to"

structure SimResult where
  entity : SimEntity
  similarity : ℚ
  confidence : Confidence
  suggestedRelationType : String
deriving Repr, DecidableEq

/-- `RelationshipDetector.detectSimilarEntities` (lines 23-71): skip the
target's own name, keep candidates whose similarity strictly exceeds
`SIMILARITY_THRESHOLD = 0.5`, sort by similarity descending and keep the
first 8. -/
def detectSimilarEntities (tp : TextProcessorPrims) (targetEntity : SimEntity)
    (candidateEntities : List SimEntity) : List SimResult :=
  let results := candidateEntities.filterMap (fun candidate =>
    if candidate.name = targetEntity.name then none
    else
      let similarity := calculateEntitySimilarity tp targetEntity candidate
      if similarity > mkRat 1 2 then
        some ⟨candidate, similarity, determineConfidence similarity,
          inferRelationshipType targetEntity candidate similarity⟩
      else none)
  (sortDescBy (fun r => r.similarity) results).take 8

/-!
## MemoryOptimizer (memory-optimizer.ts)

JS strings are `List Char`; each regex the source uses is translated to
an explicit scan.  Replacement scans carry a fuel argument equal to the
input length (every step consumes at least one source character), keeping
the definitions structurally recursive and executable.
-/

/-- `text.replace(/\s+/g, " ")`: every maximal whitespace run becomes a
single space.  The flag records whether the previous character was
whitespace (i.e. whether a run is in progress). -/
def collapseWsAux : Bool → List Char → List Char
  | _, [] => []
  | prevWs, c :: rest =>
      if isJsWs c then
        if prevWs then collapseWsAux true rest
        else ' ' :: collapseWsAux true rest
      else c :: collapseWsAux false rest

def collapseWs (l : List Char) : List Char := collapseWsAux false l

/-- Suffix of `l` strictly after its last `'\n'` (used for the greedy
backtracking of `/\n\s*\n/`). -/
def afterLastNl (l : List Char) : List Char :=
  (l.reverse.takeWhile (fun c => c ≠ '\n')).reverse

/-- `text.replace(/\n\s*\n/g, "\n")`.  A match starts at a `'\n'`; the
greedy `\s*` runs to the end of the maximal whitespace run that follows
and backtracks to the run's last `'\n'` (no match when the run holds no
further `'\n'`); the whole match is replaced by one `'\n'` and scanning
resumes after it. -/
def replaceNNGo : Nat → List Char → List Char
  | 0, l => l
  | _ + 1, [] => []
  | fuel + 1, c :: rest =>
      if c = '\n' then
        let run := rest.takeWhile isJsWs
        if run.any (fun c => c = '\n') then
          '\n' :: replaceNNGo fuel (afterLastNl run ++ rest.drop run.length)
        else '\n' :: replaceNNGo fuel rest
      else c :: replaceNNGo fuel rest

def replaceNN (l : List Char) : List Char := replaceNNGo l.length l

/-- `MemoryOptimizer.minimalCompression` (lines 191-196). -/
def minimalCompression (s : String) : String :=
  (jsTrimList (replaceNN (collapseWs s.data))).asString

/-- The abbreviation table (lines 32-68), in source order. -/
def abbreviations : List (String × String) :=
  [("configuration", "config"), ("implementation", "impl"),
   ("application", "app"), ("environment", "env"), ("development", "dev"),
   ("production", "prod"), ("repository", "repo"), ("documentation", "docs"),
   ("requirements", "reqs"), ("specification", "spec"),
   ("performance", "perf"), ("optimization", "opt"), ("management", "mgmt"),
   ("information", "info"), ("technology", "tech"), ("framework", "fw"),
   ("library", "lib"), ("service", "svc"), ("server", "srv"),
   ("client", "cli"), ("request", "req"), ("response", "resp"),
   ("message", "msg"), ("session", "sess"), ("transaction", "txn"),
   ("operation", "op"), ("process", "proc"), ("system", "sys"),
   ("network", "net"), ("security", "sec"), ("encryption", "enc"),
   ("validation", "val")]

/-- The filler-word set (lines 71-118). -/
def fillerWords : List String :=
  ["the", "a", "an", "and", "or", "but", "in", "on", "at", "to", "for",
   "of", "with", "by", "very", "quite", "really", "just", "only", "also",
   "even", "still", "rather", "pretty", "fairly", "somewhat", "basically",
   "actually", "literally", "obviously", "clearly", "essentially",
   "generally", "typically", "usually", "normally", "please", "thank",
   "thanks", "hello", "hi", "hey", "well", "um", "uh", "oh"]

/-- Is the character after the matched word a boundary? -/
def boundaryAfter : List Char → Bool
  | [] => true
  | c :: _ => ¬ isWordChar c

/-- `result.replace(new RegExp("\\b" + full + "\\b", "gi"), abbrev)`:
scan every position; a match needs a non-word character (or start) before
it — tracked by `prevW` — the key case-insensitively, and a boundary
after; scanning resumes after the matched word in the source, whose last
character is a letter, so `prevW` is true there. -/
def replaceWordGo (key val : List Char) : Nat → Bool → List Char → List Char
  | 0, _, l => l
  | _ + 1, _, [] => []
  | fuel + 1, prevW, c :: rest =>
      if ¬ prevW && lowerList ((c :: rest).take key.length) == key &&
          boundaryAfter ((c :: rest).drop key.length) then
        val ++ replaceWordGo key val fuel true ((c :: rest).drop key.length)
      else c :: replaceWordGo key val fuel (isWordChar c) rest

def replaceWordCI (key val : String) (l : List Char) : List Char :=
  replaceWordGo key.data val.data l.length false l

/-- `word.toLowerCase().replace(/[^\w]/g, "")`. -/
def cleanWord (w : List Char) : List Char := (lowerList w).filter isWordChar

/-- `MemoryOptimizer.isImportantWord` (lines 252-256): cleaned length > 3,
or the raw word has an upper-case letter or a digit. -/
def isImportantWord (w : List Char) : Bool :=
  (cleanWord w).length > 3 || w.any (fun c => c ≥ 'A' && c ≤ 'Z') ||
    w.any (fun c => c ≥ '0' && c ≤ '9')

def isFillerWord (w : List Char) : Bool :=
  fillerWords.contains (cleanWord w).asString

/-- The filler filter of `balancedCompression` (lines 208-222), with the
original word array's indices and neighbours. -/
def balancedKeep (ws : List (List Char)) (i : Nat) (w : List Char) : Bool :=
  if isFillerWord w then
    if i = 0 || i = ws.length - 1 then true
    else
      let nxt := ws.getD (i + 1) []
      let prv := ws.getD (i - 1) []
      (decide (nxt ≠ []) && isImportantWord nxt) ||
        (decide (prv ≠ []) && isImportantWord prv)
  else true

/-- `MemoryOptimizer.balancedCompression` (lines 198-225): minimal
compression, the abbreviation table, then the positional filler filter,
re-joined with single spaces. -/
def balancedCompression (s : String) : String :=
  let r1 := abbreviations.foldl (fun acc p => replaceWordCI p.1 p.2 acc)
    (minimalCompression s).data
  let ws := jsSplitPred isJsWs r1
  (List.intercalate [' ']
    (ws.enum.filterMap (fun p =>
      if balancedKeep ws p.1 p.2 then some p.2 else none))).asString

/-- `result.replace(/\bKEY\s+/gi, SYM)`: the connective shorthand
replaces of `aggressiveCompression`.  A match needs a boundary before the
key, the key, and at least one whitespace character; the greedy `\s+`
consumes the maximal run; scanning resumes after it (the source character
before the resume point is whitespace, so `prevW` is false). -/
def replaceTokenWsGo (key : List Char) (sym : Char) :
    Nat → Bool → List Char → List Char
  | 0, _, l => l
  | _ + 1, _, [] => []
  | fuel + 1, prevW, c :: rest =>
      if ¬ prevW && lowerList ((c :: rest).take key.length) == key &&
          (match (c :: rest).drop key.length with
            | c' :: _ => isJsWs c'
            | [] => false) then
        sym :: replaceTokenWsGo key sym fuel false
          (((c :: rest).drop key.length).dropWhile isJsWs)
      else c :: replaceTokenWsGo key sym fuel (isWordChar c) rest

def replaceTokenWs (key : String) (sym : Char) (l : List Char) : List Char :=
  replaceTokenWsGo key.data sym l.length false l

/-- `MemoryOptimizer.aggressiveCompression` (lines 227-250): balanced
compression, remove every remaining filler word, then the six connective
shorthand replaces in source order. -/
def aggressiveCompression (s : String) : String :=
  let ws := jsSplitPred isJsWs (balancedCompression s).data
  let r1 := List.intercalate [' '] (ws.filter (fun w => ¬ isFillerWord w))
  let r2 := replaceTokenWs "is" '=' r1
  let r3 := replaceTokenWs "has" '>' r2
  let r4 := replaceTokenWs "with" '+' r3
  let r5 := replaceTokenWs "and" '&' r4
  let r6 := replaceTokenWs "that" ':' r5
  (replaceTokenWs "which" ':' r6).asString

inductive CompressionLevel | minimal | balanced | aggressive
deriving Repr, DecidableEq

/-- The `optimized` field of `MemoryOptimizer.optimize` (lines 139-176)
for each configured compression level (the `switch` at lines 151-161). -/
def optimizeText : CompressionLevel → String → String
  | .minimal, s => minimalCompression s
  | .balanced, s => balancedCompression s
  | .aggressive, s => aggressiveCompression s

/-!
## Example database states used by concrete runs
-/

/-- A fresh store: just the pre-seeded `main` branch. -/
def dbMain : DB :=
  { branches := [⟨1, "main", "Main project memory"⟩], entities := [],
    observations := [], relations := [], keywords := [],
    crossReferences := [],
    nextBranchId := 2, nextEntityId := 1, nextObsId := 1 }

/-- `main` holding two entities `A` and `B` and no relations. -/
def dbAB : DB :=
  { branches := [⟨1, "main", "Main project memory"⟩],
    entities := [⟨1, "A", "T", 1, "active", none, "", "", 0⟩,
                 ⟨2, "B", "T", 1, "active", none, "", "", 0⟩],
    observations := [], relations := [], keywords := [],
    crossReferences := [],
    nextBranchId := 2, nextEntityId := 3, nextObsId := 1 }

/-- `main` holding `xalphax` and `C` plus a relation `xalphax → C`; the
query string `alpha` hits only `xalphax` (by LIKE substring, not as an
FTS token). -/
def dbAC : DB :=
  { branches := [⟨1, "main", "Main project memory"⟩],
    entities := [⟨1, "xalphax", "T", 1, "active", none, "", "", 0⟩,
                 ⟨2, "C", "T", 1, "active", none, "", "", 0⟩],
    observations := [], relations := [⟨1, 2, "uses", 1⟩], keywords := [],
    crossReferences := [],
    nextBranchId := 2, nextEntityId := 3, nextObsId := 1 }

/-- One entity with a single observation at `sequence_order 0`. -/
def dbSeq : DB :=
  { branches := [⟨1, "main", "Main project memory"⟩],
    entities := [⟨1, "E", "T", 1, "active", none, "", "", 0⟩],
    observations := [⟨1, 1, "a", "a", 0⟩], relations := [], keywords := [],
    crossReferences := [],
    nextBranchId := 2, nextEntityId := 2, nextObsId := 2 }

/-- Two branches, each holding one entity whose name contains `shared`
as a substring (but not as an FTS token). -/
def dbTwoBranches : DB :=
  { branches := [⟨1, "main", "Main project memory"⟩, ⟨2, "other", "o"⟩],
    entities := [⟨1, "sharedx", "T", 1, "active", none, "", "", 0⟩,
                 ⟨2, "sharedy", "T", 2, "active", none, "", "", 0⟩],
    observations := [], relations := [], keywords := [],
    crossReferences := [],
    nextBranchId := 3, nextEntityId := 3, nextObsId := 1 }

/-- A LIKE-strategy tie: `xalphax` (no observations, `last_accessed 1`)
outscores `beta` (one matching observation, `last_accessed 2`) inside the
strategy, but both merge to `relevance_score 5`. -/
def dbTie : DB :=
  { branches := [⟨1, "main", "Main project memory"⟩],
    entities := [⟨1, "xalphax", "T", 1, "active", none, "", "", 1⟩,
                 ⟨2, "beta", "U", 1, "active", none, "", "", 2⟩],
    observations := [⟨1, 2, "zalphaz", "zalphaz", 0⟩], relations := [],
    keywords := [], crossReferences := [],
    nextBranchId := 2, nextEntityId := 3, nextObsId := 2 }

/-!
## Generic list lemmas (stable descending insertion sort, merge map)
-/

theorem mem_insertDescBy {α : Type} {f : α → ℚ} {r x : α} :
    ∀ {l : List α}, x ∈ insertDescBy f r l ↔ x = r ∨ x ∈ l := by
  intro l
  induction l with
  | nil => simp [insertDescBy]
  | cons y ys ih =>
      by_cases h : f r ≥ f y
      · rw [insertDescBy, if_pos h]
        exact List.mem_cons
      · rw [insertDescBy, if_neg h]
        simp only [List.mem_cons, ih]
        tauto

theorem pairwise_insertDescBy {α : Type} {f : α → ℚ} {r : α} :
    ∀ {l : List α}, l.Pairwise (fun a b => f b ≤ f a) →
      (insertDescBy f r l).Pairwise (fun a b => f b ≤ f a) := by
  intro l
  induction l with
  | nil => simp [insertDescBy]
  | cons y ys ih =>
      intro hp
      rw [List.pairwise_cons] at hp
      by_cases h : f r ≥ f y
      · rw [insertDescBy, if_pos h, List.pairwise_cons]
        refine ⟨?_, List.pairwise_cons.2 hp⟩
        intro a ha
        rcases List.mem_cons.1 ha with rfl | ha
        · exact h
        · exact le_trans (hp.1 a ha) h
      · rw [insertDescBy, if_neg h, List.pairwise_cons]
        refine ⟨?_, ih hp.2⟩
        intro a ha
        rcases mem_insertDescBy.1 ha with rfl | ha
        · exact le_of_lt (lt_of_not_le h)
        · exact hp.1 a ha

theorem sortDescBy_pairwise {α : Type} {f : α → ℚ} :
    ∀ (l : List α), (sortDescBy f l).Pairwise (fun a b => f b ≤ f a) := by
  intro l
  induction l with
  | nil => simp [sortDescBy]
  | cons y ys ih => exact pairwise_insertDescBy ih

theorem mem_sortDescBy {α : Type} {f : α → ℚ} {x : α} :
    ∀ {l : List α}, x ∈ sortDescBy f l ↔ x ∈ l := by
  intro l
  induction l with
  | nil => simp [sortDescBy]
  | cons y ys ih =>
      show x ∈ insertDescBy f y (sortDescBy f ys) ↔ _
      rw [mem_insertDescBy]
      simp only [List.mem_cons, ih]

theorem length_sortDescBy {α : Type} {f : α → ℚ} :
    ∀ (l : List α), (sortDescBy f l).length = l.length := by
  intro l
  have hins : ∀ (r : α) (m : List α),
      (insertDescBy f r m).length = m.length + 1 := by
    intro r m
    induction m with
    | nil => simp [insertDescBy]
    | cons y ys ih =>
        by_cases h : f r ≥ f y <;> simp [insertDescBy, h, ih]
  induction l with
  | nil => simp [sortDescBy]
  | cons y ys ih =>
      show (insertDescBy f y (sortDescBy f ys)).length = _
      rw [hins, ih]
      simp

/-!
## C1: createRelations re-run behaviour
-/

theorem createRelationsStep_entities (bid : Nat) (acc : DB × List Relation)
    (rel : Relation) :
    (createRelationsStep bid acc rel).1.entities = acc.1.entities ∧
      (createRelationsStep bid acc rel).1.branches = acc.1.branches := by
  unfold createRelationsStep
  cases relKeyOf acc.1.entities bid rel <;> simp

theorem createRelationsFold_entities (bid : Nat) :
    ∀ (rels : List Relation) (acc : DB × List Relation),
      (rels.foldl (createRelationsStep bid) acc).1.entities = acc.1.entities ∧
        (rels.foldl (createRelationsStep bid) acc).1.branches = acc.1.branches := by
  intro rels
  induction rels with
  | nil => intro acc; simp
  | cons rel rest ih =>
      intro acc
      have hstep := createRelationsStep_entities bid acc rel
      have := ih (createRelationsStep bid acc rel)
      simp only [List.foldl_cons]
      exact ⟨this.1.trans hstep.1, this.2.trans hstep.2⟩

theorem createRelationsFold_created (bid : Nat) :
    ∀ (rels : List Relation) (db : DB) (c : List Relation),
      (rels.foldl (createRelationsStep bid) (db, c)).2 =
        c ++ rels.filter (fun rel => (relKeyOf db.entities bid rel).isSome) := by
  intro rels
  induction rels with
  | nil => intro db c; simp
  | cons rel rest ih =>
      intro db c
      simp only [List.foldl_cons]
      cases hk : relKeyOf db.entities bid rel with
      | none =>
          have hstep : createRelationsStep bid (db, c) rel = (db, c) := by
            unfold createRelationsStep
            rw [hk]
          rw [hstep, ih, List.filter_cons]
          simp [hk]
      | some k =>
          have hstep : createRelationsStep bid (db, c) rel =
              ({ db with relations := insertRelIgnore db.relations k bid },
                c ++ [rel]) := by
            unfold createRelationsStep
            rw [hk]
          rw [hstep, ih, List.filter_cons]
          simp [hk]

theorem hasRelKey_insert (rels : List RelRow) (k : Nat × Nat × String)
    (bid : Nat) : hasRelKey (insertRelIgnore rels k bid) k = true := by
  unfold insertRelIgnore
  by_cases h : hasRelKey rels k
  · simp [h]
  · simp only [h, if_neg, Bool.false_eq_true, not_false_eq_true, if_false]
    unfold hasRelKey
    rw [List.any_append]
    simp [hasRelKey]

theorem hasRelKey_mono (rels : List RelRow) (extra : List RelRow)
    (k : Nat × Nat × String) (h : hasRelKey rels k = true) :
    hasRelKey (rels ++ extra) k = true := by
  unfold hasRelKey at *
  rw [List.any_append, h]
  simp

theorem createRelationsStep_relations_mono (bid : Nat)
    (acc : DB × List Relation) (rel : Relation) (k : Nat × Nat × String)
    (h : hasRelKey acc.1.relations k = true) :
    hasRelKey (createRelationsStep bid acc rel).1.relations k = true := by
  unfold createRelationsStep
  cases hk : relKeyOf acc.1.entities bid rel with
  | none => simpa
  | some k' =>
      simp only
      unfold insertRelIgnore
      by_cases h' : hasRelKey acc.1.relations k'
      · simpa [h']
      · simp only [h', Bool.false_eq_true, not_false_eq_true, if_false,
          if_neg]
        exact hasRelKey_mono _ _ _ h

theorem createRelationsFold_relations_mono (bid : Nat) :
    ∀ (rels : List Relation) (acc : DB × List Relation) (k : Nat × Nat × String),
      hasRelKey acc.1.relations k = true →
      hasRelKey ((rels.foldl (createRelationsStep bid) acc).1).relations k = true := by
  intro rels
  induction rels with
  | nil => intro acc k h; simpa
  | cons rel rest ih =>
      intro acc k h
      simp only [List.foldl_cons]
      exact ih _ k (createRelationsStep_relations_mono bid acc rel k h)

theorem createRelationsFold_keys_present (bid : Nat) :
    ∀ (rels : List Relation) (acc : DB × List Relation) (rel : Relation)
      (k : Nat × Nat × String), rel ∈ rels →
      relKeyOf acc.1.entities bid rel = some k →
      hasRelKey ((rels.foldl (createRelationsStep bid) acc).1).relations k = true := by
  intro rels
  induction rels with
  | nil => intro acc rel k h; simp at h
  | cons rel0 rest ih =>
      intro acc rel k hmem hk
      simp only [List.foldl_cons]
      rcases List.mem_cons.1 hmem with rfl | hmem
      · have hstep : (createRelationsStep bid acc rel).1 =
            { acc.1 with relations := insertRelIgnore acc.1.relations k bid } := by
          unfold createRelationsStep
          rw [hk]
        apply createRelationsFold_relations_mono
        rw [hstep]
        exact hasRelKey_insert _ _ _
      · apply ih _ rel k hmem
        rw [(createRelationsStep_entities bid acc rel0).1]
        exact hk

theorem createRelationsFold_noop (bid : Nat) :
    ∀ (rels : List Relation) (db : DB) (c : List Relation),
      (∀ rel ∈ rels, ∀ k, relKeyOf db.entities bid rel = some k →
        hasRelKey db.relations k = true) →
      (rels.foldl (createRelationsStep bid) (db, c)).1 = db := by
  intro rels
  induction rels with
  | nil => intro db c _; simp
  | cons rel rest ih =>
      intro db c h
      simp only [List.foldl_cons]
      cases hk : relKeyOf db.entities bid rel with
      | none =>
          have hstep : createRelationsStep bid (db, c) rel = (db, c) := by
            unfold createRelationsStep
            rw [hk]
          rw [hstep]
          exact ih db c (fun r hr => h r (List.mem_cons_of_mem _ hr))
      | some k =>
          have hpresent := h rel (List.mem_cons_self _ _) k hk
          have hstep : createRelationsStep bid (db, c) rel = (db, c ++ [rel]) := by
            unfold createRelationsStep
            rw [hk]
            simp [insertRelIgnore, hpresent]
          rw [hstep]
          exact ih db _ (fun r hr => h r (List.mem_cons_of_mem _ hr))

/-- The fresh row `getBranchId` inserts when the name is absent. -/
def newBranchRow (db : DB) (b : Option String) : BranchRow :=
  ⟨db.nextBranchId, resolveBranchName b,
    "Auto-created branch: " ++ resolveBranchName b⟩

theorem getBranchId_found (db : DB) (b : Option String) (br : BranchRow)
    (hf : db.branches.find? (fun x => x.name == resolveBranchName b) = some br) :
    getBranchId db b = (br.id, db) := by
  simp only [getBranchId, hf]

theorem getBranchId_missing (db : DB) (b : Option String)
    (hf : db.branches.find? (fun x => x.name == resolveBranchName b) = none) :
    getBranchId db b =
      (db.nextBranchId,
        { db with branches := db.branches ++ [newBranchRow db b],
                  nextBranchId := db.nextBranchId + 1 }) := by
  simp only [getBranchId, hf, newBranchRow]

/-- Looking a name up in a state whose branch list equals the post-state
of a `getBranchId` call finds the same id and leaves the state unchanged. -/
theorem getBranchId_congr (db db' : DB) (b : Option String)
    (h : db'.branches = (getBranchId db b).2.branches) :
    getBranchId db' b = ((getBranchId db b).1, db') := by
  cases hf : db.branches.find? (fun x => x.name == resolveBranchName b) with
  | some br =>
      rw [getBranchId_found db b br hf] at h ⊢
      have h' : db'.branches = db.branches := h
      exact getBranchId_found db' b br (by rw [h', hf])
  | none =>
      rw [getBranchId_missing db b hf] at h ⊢
      have h' : db'.branches = db.branches ++ [newBranchRow db b] := h
      have hfind : db'.branches.find? (fun x => x.name == resolveBranchName b) =
          some (newBranchRow db b) := by
        rw [h', List.find?_append, hf]
        simp [newBranchRow]
      exact getBranchId_found db' b (newBranchRow db b) hfind

theorem getBranchId_stable (db : DB) (b : Option String) :
    getBranchId (getBranchId db b).2 b =
      ((getBranchId db b).1, (getBranchId db b).2) :=
  getBranchId_congr db _ b rfl

/-- C1 counterexample: with entities `A`, `B` in `main`, issuing the batch
`[A → B "uses"]` twice leaves the relations table unchanged, yet the second
call returns the batch again — not the empty list — because the loop pushes
onto `createdRelations` whenever both endpoints exist, regardless of the
`INSERT OR IGNORE` outcome. -/
theorem createRelations_rerun_not_empty :
    (MemSrv.createRelations
        (MemSrv.createRelations MemSrv.dbAB [⟨"A", "B", "uses"⟩] none).1
        [⟨"A", "B", "uses"⟩] none).2 = [⟨"A", "B", "uses"⟩] ∧
    MemSrv.hasRelKey
        (MemSrv.createRelations MemSrv.dbAB [⟨"A", "B", "uses"⟩] none).1.relations
        (1, 2, "uses") = true ∧
    ¬ (MemSrv.createRelations
        (MemSrv.createRelations MemSrv.dbAB [⟨"A", "B", "uses"⟩] none).1
        [⟨"A", "B", "uses"⟩] none).2 = [] := by
  refine ⟨by decide, by decide, by decide⟩

/-- C1 (amended): re-issuing a batch is a no-op on the relations table —
`INSERT OR IGNORE` on the uniqueness key `(from, to, relation_type)` leaves
every row in place — and the second call returns the same list as the
first: every batch relation with nonblank fields whose endpoints both
exist in the branch, whether or not the row already existed.  In
particular an already-existing relation is still included in the returned
set. -/
theorem createRelations_rerun_noop (db : MemSrv.DB)
    (rels : List MemSrv.Relation) (b : Option String) :
    (MemSrv.createRelations (MemSrv.createRelations db rels b).1 rels b).1.relations =
      (MemSrv.createRelations db rels b).1.relations ∧
    (MemSrv.createRelations (MemSrv.createRelations db rels b).1 rels b).2 =
      (MemSrv.createRelations db rels b).2 := by
  cases rels with
  | nil => simp [MemSrv.createRelations]
  | cons rel0 rest =>
      have hfirst : MemSrv.createRelations db (rel0 :: rest) b =
          (rel0 :: rest).foldl
            (MemSrv.createRelationsStep (MemSrv.getBranchId db b).1)
            ((MemSrv.getBranchId db b).2, []) := rfl
      set bid := (MemSrv.getBranchId db b).1 with hbid
      set db1 := (MemSrv.getBranchId db b).2 with hdb1
      set r1 := (rel0 :: rest).foldl (MemSrv.createRelationsStep bid) (db1, [])
        with hr1
      have hent : r1.1.entities = db1.entities :=
        (MemSrv.createRelationsFold_entities bid (rel0 :: rest) (db1, [])).1
      have hbr : r1.1.branches = db1.branches :=
        (MemSrv.createRelationsFold_entities bid (rel0 :: rest) (db1, [])).2
      have hg2 : MemSrv.getBranchId r1.1 b = (bid, r1.1) :=
        MemSrv.getBranchId_congr db r1.1 b (by rw [hbr])
      have hsecond : MemSrv.createRelations r1.1 (rel0 :: rest) b =
          (rel0 :: rest).foldl
            (MemSrv.createRelationsStep (MemSrv.getBranchId r1.1 b).1)
            ((MemSrv.getBranchId r1.1 b).2, []) := rfl
      rw [hfirst, hsecond, hg2]
      have hnoop : ((rel0 :: rest).foldl (MemSrv.createRelationsStep bid)
          (r1.1, ([] : List MemSrv.Relation))).1 = r1.1 := by
        apply MemSrv.createRelationsFold_noop
        intro rel hmem k hk
        rw [hent] at hk
        exact MemSrv.createRelationsFold_keys_present bid (rel0 :: rest)
          (db1, []) rel k hmem hk
      refine ⟨by rw [hnoop], ?_⟩
      rw [MemSrv.createRelationsFold_created bid (rel0 :: rest) r1.1 [],
        MemSrv.createRelationsFold_created bid (rel0 :: rest) db1 [], hent]

/-!
## C10: silent branch auto-creation
-/

theorem addObsLoop_branches (eid : Nat) (s : Int) :
    ∀ (contents : List String) (i : Nat) (db : MemSrv.DB),
      (MemSrv.addObsLoop eid s i db contents).1.branches = db.branches := by
  intro contents
  induction contents with
  | nil => intro i db; simp [MemSrv.addObsLoop]
  | cons c rest ih =>
      intro i db
      rw [MemSrv.addObsLoop]
      by_cases h : c ≠ "" ∧ MemSrv.jsTrim c ≠ ""
      · rw [if_pos h]
        exact ih (i + 1) _
      · rw [if_neg h]
        exact ih (i + 1) db

theorem addObservationsStep_branches (bid : Nat)
    (acc : MemSrv.DB × List MemSrv.ObsResult) (obs : MemSrv.ObsInput) :
    (MemSrv.addObservationsStep bid acc obs).1.branches = acc.1.branches := by
  unfold MemSrv.addObservationsStep
  cases MemSrv.findEntityRow acc.1 obs.entityName bid with
  | none => simp
  | some e => simp [addObsLoop_branches]

theorem addObservationsFold_branches (bid : Nat) :
    ∀ (obs : List MemSrv.ObsInput) (acc : MemSrv.DB × List MemSrv.ObsResult),
      ((obs.foldl (MemSrv.addObservationsStep bid) acc).1).branches =
        acc.1.branches := by
  intro obs
  induction obs with
  | nil => intro acc; simp
  | cons o rest ih =>
      intro acc
      simp only [List.foldl_cons]
      rw [ih, addObservationsStep_branches]

theorem insertObsRows_branches (eid : Nat) :
    ∀ (contents : List String) (i : Nat) (db : MemSrv.DB),
      (MemSrv.insertObsRows eid i db contents).branches = db.branches := by
  intro contents
  induction contents with
  | nil => intro i db; simp [MemSrv.insertObsRows]
  | cons c rest ih =>
      intro i db
      rw [MemSrv.insertObsRows]
      exact ih (i + 1) _

theorem createSingleEntity_branches (db : MemSrv.DB) (bid : Nat)
    (e : MemSrv.EntityInput) (db' : MemSrv.DB) (ce : MemSrv.CreatedEntity)
    (h : MemSrv.createSingleEntity db bid e = .ok (db', ce)) :
    db'.branches = db.branches := by
  unfold MemSrv.createSingleEntity at h
  by_cases hdup : db.entities.any (fun x =>
      x.name == (if MemSrv.jsTrim e.name = "" then "Unnamed Entity"
        else MemSrv.jsTrim e.name) && x.branchId == bid)
  · simp only [hdup, if_pos] at h
    cases h
  · simp only [hdup, Bool.false_eq_true, not_false_eq_true, if_neg,
      Except.ok.injEq, Prod.mk.injEq] at h
    rcases h with ⟨h1, _⟩
    rw [← h1]
    simp only [MemSrv.insertKeywordRows]
    rw [insertObsRows_branches]

theorem createEntitiesFold_branches (bid : Nat) :
    ∀ (es : List MemSrv.EntityInput)
      (acc : MemSrv.DB × List MemSrv.CreatedEntity),
      ((es.foldl (fun acc e =>
          match MemSrv.createSingleEntity acc.1 bid e with
          | .ok (db', ce) => (db', acc.2 ++ [ce])
          | .error _ => acc) acc).1).branches = acc.1.branches := by
  intro es
  induction es with
  | nil => intro acc; simp
  | cons e rest ih =>
      intro acc
      simp only [List.foldl_cons]
      rw [ih]
      cases hc : MemSrv.createSingleEntity acc.1 bid e with
      | ok p =>
          cases p with
          | mk db' ce => simp [createSingleEntity_branches acc.1 bid e db' ce hc]
      | error msg => simp

theorem getBranchId_has_name (db : MemSrv.DB) (b : Option String) :
    ∃ br ∈ ((MemSrv.getBranchId db b).2).branches,
      br.name = MemSrv.resolveBranchName b := by
  cases hf : db.branches.find?
      (fun x => x.name == MemSrv.resolveBranchName b) with
  | some br =>
      rw [MemSrv.getBranchId_found db b br hf]
      refine ⟨br, List.mem_of_find?_eq_some hf, ?_⟩
      have := List.find?_some hf
      simpa using this
  | none =>
      rw [MemSrv.getBranchId_missing db b hf]
      exact ⟨MemSrv.newBranchRow db b,
        List.mem_append_right _ (List.mem_singleton_self _),
        rfl⟩

/-- C10: every store operation that resolves a branch name silently
creates a missing branch instead of raising `NotFound` —
`createRelations` (on a nonempty batch), `addObservations` and
`createEntities` all leave a branch row named `s` behind — and
`deleteBranch` on a nonexistent non-`main` branch succeeds rather than
erroring: when every stored branch id and every branch-referencing
column sits below the id counter (true of every reachable store, since
ids are handed out by the counter), the branch is auto-created at the
fresh id, the `DELETE` passes the foreign-key check because no child row
references that fresh id, and the branch table is left as it was.
(Deleting an *existing* branch that still holds entities, relations or
cross-references errors instead — `foreign_keys = ON` with no cascade on
those keys — but the claim concerns only the nonexistent branch.) -/
theorem branch_autocreate :
    (∀ (db : MemSrv.DB) (s : String), s ≠ "" →
      ∃ br ∈ ((MemSrv.getBranchId db (some s)).2).branches, br.name = s) ∧
    (∀ (db : MemSrv.DB) (rels : List MemSrv.Relation) (s : String), s ≠ "" →
      rels ≠ [] →
      ∃ br ∈ ((MemSrv.createRelations db rels (some s)).1).branches,
        br.name = s) ∧
    (∀ (db : MemSrv.DB) (obs : List MemSrv.ObsInput) (s : String), s ≠ "" →
      ∃ br ∈ ((MemSrv.addObservations db obs (some s)).1).branches,
        br.name = s) ∧
    (∀ (db : MemSrv.DB) (es : List MemSrv.EntityInput) (s : String), s ≠ "" →
      ∃ br ∈ ((MemSrv.createEntities db es (some s)).1).branches,
        br.name = s) ∧
    (∀ (db : MemSrv.DB) (name : String), name ≠ "main" → name ≠ "" →
      (∀ br ∈ db.branches, br.name ≠ name) →
      (∀ br ∈ db.branches, br.id < db.nextBranchId) →
      (∀ e ∈ db.entities, e.branchId < db.nextBranchId) →
      (∀ r ∈ db.relations, r.branchId < db.nextBranchId) →
      (∀ c ∈ db.crossReferences, c.targetBranchId < db.nextBranchId) →
      ∃ db', MemSrv.deleteBranch db name = .ok db' ∧
        db'.branches = db.branches) := by
  have hres : ∀ s : String, s ≠ "" → MemSrv.resolveBranchName (some s) = s := by
    intro s hs
    simp [MemSrv.resolveBranchName, hs]
  refine ⟨?_, ?_, ?_, ?_, ?_⟩
  · intro db s hs
    have := getBranchId_has_name db (some s)
    rwa [hres s hs] at this
  · intro db rels s hs hne
    cases rels with
    | nil => exact absurd rfl hne
    | cons rel0 rest =>
        have hstep : MemSrv.createRelations db (rel0 :: rest) (some s) =
            (rel0 :: rest).foldl
              (MemSrv.createRelationsStep (MemSrv.getBranchId db (some s)).1)
              ((MemSrv.getBranchId db (some s)).2, []) := rfl
        rw [hstep,
          (MemSrv.createRelationsFold_entities _ (rel0 :: rest) _).2]
        have := getBranchId_has_name db (some s)
        rwa [hres s hs] at this
  · intro db obs s hs
    have hstep : MemSrv.addObservations db obs (some s) =
        obs.foldl (MemSrv.addObservationsStep (MemSrv.getBranchId db (some s)).1)
          ((MemSrv.getBranchId db (some s)).2, []) := rfl
    rw [hstep, addObservationsFold_branches]
    have := getBranchId_has_name db (some s)
    rwa [hres s hs] at this
  · intro db es s hs
    have hstep : MemSrv.createEntities db es (some s) =
        es.foldl (fun acc e =>
          match MemSrv.createSingleEntity acc.1 (MemSrv.getBranchId db (some s)).1 e with
          | .ok (db', ce) => (db', acc.2 ++ [ce])
          | .error _ => acc)
          ((MemSrv.getBranchId db (some s)).2, []) := rfl
    rw [hstep, createEntitiesFold_branches]
    have := getBranchId_has_name db (some s)
    rwa [hres s hs] at this
  · intro db name hname hne habsent hbound hent hrel hcross
    have hf : db.branches.find?
        (fun x => x.name == MemSrv.resolveBranchName (some name)) = none := by
      rw [List.find?_eq_none]
      intro x hx
      rw [hres name hne]
      simpa using habsent x hx
    have hg := MemSrv.getBranchId_missing db (some name) hf
    have href : MemSrv.branchReferenced (MemSrv.getBranchId db (some name)).2
        (MemSrv.getBranchId db (some name)).1 = false := by
      rw [hg]
      unfold MemSrv.branchReferenced
      dsimp only
      simp only [Bool.or_eq_false_iff, List.any_eq_false]
      refine ⟨⟨fun e he => ?_, fun r hr => ?_⟩, fun c hc => ?_⟩
      · simpa using Nat.ne_of_lt (hent e he)
      · simpa using Nat.ne_of_lt (hrel r hr)
      · simpa using Nat.ne_of_lt (hcross c hc)
    have hrefP : ¬ MemSrv.branchReferenced (MemSrv.getBranchId db (some name)).2
        (MemSrv.getBranchId db (some name)).1 = true := by
      rw [href]
      exact Bool.false_ne_true
    have hd : MemSrv.deleteBranch db name =
        (if MemSrv.branchReferenced (MemSrv.getBranchId db (some name)).2
            (MemSrv.getBranchId db (some name)).1 then
          Except.error "FOREIGN KEY constraint failed"
        else Except.ok { (MemSrv.getBranchId db (some name)).2 with
          branches := (MemSrv.getBranchId db (some name)).2.branches.filter
            (fun b => b.id ≠ (MemSrv.getBranchId db (some name)).1) }) := by
      unfold MemSrv.deleteBranch
      rw [if_neg hname]
    refine ⟨{ (MemSrv.getBranchId db (some name)).2 with
        branches := (MemSrv.getBranchId db (some name)).2.branches.filter
          (fun b => b.id ≠ (MemSrv.getBranchId db (some name)).1) }, ?_, ?_⟩
    · rw [hd, if_neg hrefP]
    · show (MemSrv.getBranchId db (some name)).2.branches.filter
        (fun b => b.id ≠ (MemSrv.getBranchId db (some name)).1) = db.branches
      rw [MemSrv.getBranchId_missing db (some name) hf]
      simp only [List.filter_append]
      have h1 : db.branches.filter (fun b => b.id ≠ db.nextBranchId) =
          db.branches := by
        rw [List.filter_eq_self]
        intro a ha
        simpa using Nat.ne_of_lt (hbound a ha)
      have h2 : ([MemSrv.newBranchRow db (some name)].filter
          (fun b => b.id ≠ db.nextBranchId)) = [] := by
        simp [MemSrv.newBranchRow]
      rw [h1, h2, List.append_nil]

/-- C10 witness: the auto-create clause at a fresh store and branch
`docs`, and the delete-nonexistent clause at branch `ghost`. -/
theorem branch_autocreate_witness :
    (∃ br ∈ ((MemSrv.getBranchId MemSrv.dbMain (some "docs")).2).branches,
      br.name = "docs") ∧
    (∃ db', MemSrv.deleteBranch MemSrv.dbMain "ghost" = .ok db' ∧
      db'.branches = MemSrv.dbMain.branches) :=
  ⟨branch_autocreate.1 MemSrv.dbMain "docs" (by decide),
   branch_autocreate.2.2.2.2 MemSrv.dbMain "ghost" (by decide) (by decide)
     (by decide) (by decide) (by decide) (by decide) (by decide)⟩

/-!
## C3: addObservations sequence numbering
-/

/-- C3: the claim is right and the code is wrong.  On an entity whose
single observation sits at `sequence_order 0` (the value `createEntities`
assigns to a first observation), adding `["x"]` must append at sequence
`1`, strictly above the previous maximum `0`.  The JS
`(maxSeq?.max_seq || -1) + 1` treats the legitimate maximum `0` as falsy,
evaluates to `0`, and inserts the new observation at `sequence_order 0` —
duplicating the existing order and breaking uniqueness and strict
increase, while the SQL `COALESCE(MAX(sequence_order), -1)` right next to
it shows the intended empty-table default.  The returned added-set is
still `["x"]`. -/
theorem addObservations_seq_zero_collision :
    MemSrv.maxSeqOf MemSrv.dbSeq 1 = 0 ∧
    ((MemSrv.addObservations MemSrv.dbSeq [⟨"E", ["x"]⟩] none).1.observations.map
      (fun o => o.seq)) = [0, 0] ∧
    (MemSrv.addObservations MemSrv.dbSeq [⟨"E", ["x"]⟩] none).2 =
      [⟨"E", ["x"]⟩] := by
  refine ⟨by decide, by decide, by decide⟩

/-!
## C9: blank entity names
-/

theorem insertObsRows_entities (eid : Nat) :
    ∀ (contents : List String) (i : Nat) (db : MemSrv.DB),
      (MemSrv.insertObsRows eid i db contents).entities = db.entities := by
  intro contents
  induction contents with
  | nil => intro i db; simp [MemSrv.insertObsRows]
  | cons c rest ih =>
      intro i db
      rw [MemSrv.insertObsRows]
      exact ih (i + 1) _

/-- C9 counterexample: creating an entity whose name is whitespace-only
does not surface an `Invalid` error — the entity is inserted under the
substitute name `"Unnamed Entity"` and reported as created. -/
theorem createEntities_blank_name_inserts :
    ((MemSrv.createEntities MemSrv.dbMain
        [⟨"   ", "Service", ["obs"], none, none, []⟩] none).1.entities.map
      (fun e => e.name)) = ["Unnamed Entity"] ∧
    ((MemSrv.createEntities MemSrv.dbMain
        [⟨"   ", "Service", ["obs"], none, none, []⟩] none).2.map
      (fun ce => ce.name)) = ["Unnamed Entity"] := by
  refine ⟨by decide, by decide⟩

/-- C9 (amended): a blank or whitespace-only entity name is not rejected:
`createSingleEntity` behaves exactly as if the entity were named
`"Unnamed Entity"`, and on success the row is stored under that
substitute name in the requested branch (it fails only when an
`"Unnamed Entity"` row already occupies the branch, as a duplicate, not
as `Invalid`). -/
theorem createSingleEntity_blank_name (db : MemSrv.DB) (bid : Nat)
    (e : MemSrv.EntityInput) (h : MemSrv.jsTrim e.name = "") :
    MemSrv.createSingleEntity db bid e =
      MemSrv.createSingleEntity db bid { e with name := "Unnamed Entity" } ∧
    ∀ db' ce, MemSrv.createSingleEntity db bid e = .ok (db', ce) →
      ce.name = "Unnamed Entity" ∧
      ∃ row ∈ db'.entities, row.name = "Unnamed Entity" ∧
        row.branchId = bid := by
  have hsub : MemSrv.jsTrim "Unnamed Entity" = "Unnamed Entity" := by decide
  have hname : (if MemSrv.jsTrim e.name = "" then "Unnamed Entity"
      else MemSrv.jsTrim e.name) = "Unnamed Entity" := by rw [h]; simp
  constructor
  · unfold MemSrv.createSingleEntity
    rw [hname]
    simp only [hsub]
    rw [if_neg (by decide : ¬ ("Unnamed Entity" : String) = "")]
  · intro db' ce hok
    unfold MemSrv.createSingleEntity at hok
    rw [hname] at hok
    by_cases hdup : db.entities.any (fun x =>
        x.name == ("Unnamed Entity" : String) && x.branchId == bid)
    · rw [if_pos hdup] at hok
      cases hok
    · rw [if_neg hdup] at hok
      rw [Except.ok.injEq, Prod.mk.injEq] at hok
      rcases hok with ⟨h1, h2⟩
      constructor
      · rw [← h2]
      · rw [← h1]
        simp only [MemSrv.insertKeywordRows]
        rw [insertObsRows_entities]
        refine ⟨_, List.mem_append_right _ (List.mem_singleton_self _), rfl, rfl⟩

/-- C9 witness: the amended statement at a concrete whitespace-only name
on the fresh store. -/
theorem createSingleEntity_blank_name_witness :
    MemSrv.createSingleEntity MemSrv.dbMain 1 ⟨" ", "T", [], none, none, []⟩ =
      MemSrv.createSingleEntity MemSrv.dbMain 1
        ⟨"Unnamed Entity", "T", [], none, none, []⟩ :=
  (createSingleEntity_blank_name MemSrv.dbMain 1
    ⟨" ", "T", [], none, none, []⟩ (by decide)).1

/-!
## Search soundness lemmas (C2, C4, C5)
-/

theorem mem_insertPrecBy {α : Type} {prec : α → α → Bool} {r x : α} :
    ∀ {l : List α}, x ∈ insertPrecBy prec r l ↔ x = r ∨ x ∈ l := by
  intro l
  induction l with
  | nil => simp [insertPrecBy]
  | cons y ys ih =>
      by_cases h : prec y r
      · rw [insertPrecBy, if_pos h]
        simp only [List.mem_cons, ih]
        tauto
      · rw [insertPrecBy, if_neg h]
        exact List.mem_cons

theorem mem_sortPrecBy {α : Type} {prec : α → α → Bool} {x : α} :
    ∀ {l : List α}, x ∈ sortPrecBy prec l ↔ x ∈ l := by
  intro l
  induction l with
  | nil => simp [sortPrecBy]
  | cons y ys ih =>
      show x ∈ insertPrecBy prec y (sortPrecBy prec ys) ↔ _
      rw [mem_insertPrecBy]
      simp only [List.mem_cons, ih]

/-- Every keyword-strategy row satisfies the branch and status filters of
its SQL `WHERE` clause. -/
theorem searchByKeywords_filters (db : DB) (terms : List String)
    (bid : Option Nat) (st : List String) :
    ∀ r ∈ searchByKeywords db terms bid st,
      branchOk bid r.entity = true ∧
        (effStatuses st).contains r.entity.status = true := by
  intro r hr
  unfold searchByKeywords at hr
  rw [mem_sortDescBy] at hr
  rcases List.mem_filterMap.1 hr with ⟨e, _, he⟩
  by_cases hK : (db.keywords.filter (fun k =>
      k.entityId == e.id && terms.any (fun t => sqlLike k.keyword t))).isEmpty
  · rw [if_pos hK] at he
    cases he
  · rw [if_neg hK] at he
    by_cases hc : branchOk bid e && (effStatuses st).contains e.status
    · rw [if_pos hc] at he
      cases he
      rw [Bool.and_eq_true] at hc
      exact hc
    · rw [if_neg hc] at he
      cases he

theorem searchByFTS_filters (db : DB) (terms : List String)
    (bid : Option Nat) (st : List String) :
    ∀ r ∈ searchByFTS db terms bid st,
      branchOk bid r.entity = true ∧
        (effStatuses st).contains r.entity.status = true := by
  intro r hr
  unfold searchByFTS at hr
  by_cases hq : ftsQueryOk terms
  · rw [if_pos hq] at hr
    rcases List.mem_filterMap.1 hr with ⟨e, _, he⟩
    by_cases hc : ftsRowMatch e terms && branchOk bid e &&
        (effStatuses st).contains e.status
    · rw [if_pos hc] at he
      cases he
      rw [Bool.and_eq_true, Bool.and_eq_true] at hc
      exact ⟨hc.1.2, hc.2⟩
    · rw [if_neg hc] at he
      cases he
  · rw [if_neg hq] at hr
    cases hr

theorem searchByLike_filters (db : DB) (terms : List String)
    (bid : Option Nat) (st : List String) :
    ∀ r ∈ searchByLike db terms bid st,
      branchOk bid r.entity = true ∧
        (effStatuses st).contains r.entity.status = true := by
  intro r hr
  unfold searchByLike at hr
  rw [mem_sortPrecBy] at hr
  rcases List.mem_filterMap.1 hr with ⟨e, _, he⟩
  by_cases hc : (likeNameTypeHit terms e ||
        !(likeMatching db terms e).isEmpty) &&
      branchOk bid e && (effStatuses st).contains e.status
  · rw [if_pos hc] at he
    rw [Bool.and_eq_true, Bool.and_eq_true] at hc
    by_cases ht : likeTotal db terms e > 0
    · rw [if_pos ht] at he
      cases he
      exact ⟨hc.1.2, hc.2⟩
    · rw [if_neg ht] at he
      cases he
  · rw [if_neg hc] at he
    cases he

/-- Merged rows keep the entity of some strategy row. -/
theorem mem_mergeAdd_entity {bonus : ℚ} {m : List SearchRow} {r x : SearchRow}
    (hx : x ∈ mergeAdd bonus m r) :
    (∃ y ∈ m, x.entity = y.entity) ∨ x.entity = r.entity := by
  unfold mergeAdd at hx
  by_cases h : m.any (fun y => y.entity.id == r.entity.id)
  · rw [if_pos h] at hx
    rcases List.mem_map.1 hx with ⟨y, hy, hxy⟩
    left
    refine ⟨y, hy, ?_⟩
    by_cases hid : y.entity.id == r.entity.id
    · rw [if_pos hid] at hxy
      rw [← hxy]
    · rw [if_neg hid] at hxy
      rw [← hxy]
  · rw [if_neg h] at hx
    rcases List.mem_append.1 hx with hx | hx
    · exact Or.inl ⟨x, hx, rfl⟩
    · right
      rcases List.mem_singleton.1 hx with rfl
      rfl

theorem mem_foldl_mergeAdd {bonus : ℚ} :
    ∀ (l : List SearchRow) (m : List SearchRow) (x : SearchRow),
      x ∈ l.foldl (mergeAdd bonus) m →
      (∃ y ∈ m, x.entity = y.entity) ∨ ∃ y ∈ l, x.entity = y.entity := by
  intro l
  induction l with
  | nil => intro m x hx; exact Or.inl ⟨x, hx, rfl⟩
  | cons r rest ih =>
      intro m x hx
      simp only [List.foldl_cons] at hx
      rcases ih (mergeAdd bonus m r) x hx with ⟨y, hy, hxy⟩ | ⟨y, hy, hxy⟩
      · rcases mem_mergeAdd_entity hy with ⟨z, hz, hyz⟩ | hyr
        · exact Or.inl ⟨z, hz, hxy.trans hyz⟩
        · exact Or.inr ⟨r, List.mem_cons_self _ _, hxy.trans hyr⟩
      · exact Or.inr ⟨y, List.mem_cons_of_mem _ hy, hxy⟩

/-- Every merged-search row carries the entity of some row of one of the
three strategies. -/
theorem mem_executeEnhancedSearch (db : DB) (terms : List String)
    (bid : Option Nat) (st : List String) :
    ∀ x ∈ executeEnhancedSearch db terms bid st,
      ∃ y, (y ∈ searchByKeywords db terms bid st ∨
            y ∈ searchByFTS db terms bid st ∨
            y ∈ searchByLike db terms bid st) ∧ x.entity = y.entity := by
  intro x hx
  unfold executeEnhancedSearch at hx
  by_cases hne : terms.isEmpty
  · rw [if_pos hne] at hx
    cases hx
  · rw [if_neg hne] at hx
    have hx1 := (List.take_sublist _ _).subset hx
    rw [mem_sortDescBy] at hx1
    have hx2 := List.mem_filter.1 hx1
    rcases mem_foldl_mergeAdd _ _ _ hx2.1 with ⟨y, hy, hxy⟩ | ⟨y, hy, hxy⟩
    · rcases mem_foldl_mergeAdd _ _ _ hy with ⟨z, hz, hyz⟩ | ⟨z, hz, hyz⟩
      · rcases List.mem_map.1 hz with ⟨w, hw, hwz⟩
        refine ⟨w, Or.inl hw, ?_⟩
        rw [hxy, hyz, ← hwz]
      · exact ⟨z, Or.inr (Or.inl hz), hxy.trans hyz⟩
    · exact ⟨y, Or.inr (Or.inr hy), hxy⟩

theorem contains_iff_mem {l : List String} {a : String} :
    l.contains a = true ↔ a ∈ l := by
  induction l with
  | nil => simp
  | cons x xs ih =>
      simp only [List.contains_cons, Bool.or_eq_true, beq_iff_eq, ih,
        List.mem_cons]

theorem getBranchId_state (db : MemSrv.DB) (b : Option String) :
    (MemSrv.getBranchId db b).2.entities = db.entities ∧
      (MemSrv.getBranchId db b).2.relations = db.relations := by
  cases hf : db.branches.find?
      (fun x => x.name == MemSrv.resolveBranchName b) with
  | some br =>
      rw [MemSrv.getBranchId_found db b br hf]
      exact ⟨rfl, rfl⟩
  | none =>
      rw [MemSrv.getBranchId_missing db b hf]
      exact ⟨rfl, rfl⟩

theorem searchScope_state (db : MemSrv.DB) (b : Option String) :
    (MemSrv.searchScope db b).2.entities = db.entities ∧
      (MemSrv.searchScope db b).2.relations = db.relations := by
  cases b with
  | none => exact ⟨rfl, rfl⟩
  | some s =>
      unfold MemSrv.searchScope
      dsimp only
      by_cases h : s ≠ "" ∧ s ≠ "*"
      · rw [if_pos h]
        exact getBranchId_state db (some s)
      · rw [if_neg h]
        exact ⟨rfl, rfl⟩

theorem relationScope_state (db : MemSrv.DB) (b : Option String) :
    (MemSrv.relationScope db b).2.entities = db.entities ∧
      (MemSrv.relationScope db b).2.relations = db.relations := by
  cases b with
  | none => exact ⟨rfl, rfl⟩
  | some s =>
      unfold MemSrv.relationScope
      dsimp only
      by_cases h : s ≠ ""
      · rw [if_pos h]
        exact getBranchId_state db (some s)
      · rw [if_neg h]
        exact ⟨rfl, rfl⟩

theorem entById_congr (db db' : MemSrv.DB) (h : db'.entities = db.entities)
    (i : Nat) : MemSrv.entById db' i = MemSrv.entById db i := by
  unfold MemSrv.entById
  rw [h]

theorem mem_getRelationsForEntities {db : MemSrv.DB} {names : List String}
    {bid : Option Nat} {rel : MemSrv.Relation}
    (h : rel ∈ MemSrv.getRelationsForEntities db names bid) :
    ∃ r ∈ db.relations, ∃ ef et : MemSrv.EntityRow,
      MemSrv.entById db r.fromEntityId = some ef ∧
      MemSrv.entById db r.toEntityId = some et ∧
      rel.fromName = ef.name ∧ rel.toName = et.name ∧
      rel.relationType = r.relationType ∧
      (names.contains ef.name = true ∨ names.contains et.name = true) ∧
      (∀ b, bid = some b → r.branchId = b) := by
  unfold MemSrv.getRelationsForEntities at h
  by_cases hne : names.isEmpty
  · rw [if_pos hne] at h
    cases h
  · rw [if_neg hne] at h
    rcases List.mem_filterMap.1 h with ⟨r, hr, hfr⟩
    split at hfr
    · split at hfr
      · rename_i ef et hef het hcond
        cases hfr
        rw [Bool.and_eq_true, Bool.or_eq_true] at hcond
        refine ⟨r, hr, ef, et, hef, het, rfl, rfl, rfl, hcond.1, ?_⟩
        intro b hb
        subst hb
        have h2 : (r.branchId == b) = true := hcond.2
        exact eq_of_beq h2
      · cases hfr
    · cases hfr

/-- C2 counterexample: searching `alpha` in `main` over `dbAC` returns
only the entity `xalphax`, yet the returned graph contains the relation
`xalphax → C` whose to-endpoint `C` is not among the returned entities —
the SQL keeps relations with **either** endpoint in the set (`OR`), not
both. -/
theorem searchEntities_dangling_endpoint :
    ((MemSrv.searchEntities MemSrv.dbAC "alpha" (some "main") []).1.entities.map
      (fun e => e.name)) = ["xalphax"] ∧
    (MemSrv.searchEntities MemSrv.dbAC "alpha" (some "main") []).1.relations =
      [⟨"xalphax", "C", "uses"⟩] ∧
    ¬ ("C" ∈ ((MemSrv.searchEntities MemSrv.dbAC "alpha" (some "main")
        []).1.entities.map (fun e => e.name))) := by
  refine ⟨by decide, by decide, by decide⟩

/-- C2 (amended): every relation in a returned graph has **at least one**
endpoint among the returned entities (not necessarily both), and it is
the image of a relation row of the store whose endpoints resolve to the
relation's names; when a specific branch (≠ `"*"`, nonempty) was
requested, that row lies in the resolved branch. -/
theorem searchEntities_relations_sound (db : MemSrv.DB) (q : String)
    (bN : Option String) (st : List String) :
    ∀ rel ∈ (MemSrv.searchEntities db q bN st).1.relations,
      (rel.fromName ∈ ((MemSrv.searchEntities db q bN st).1.entities.map
          (fun e => e.name)) ∨
        rel.toName ∈ ((MemSrv.searchEntities db q bN st).1.entities.map
          (fun e => e.name))) ∧
      ∃ r ∈ db.relations, ∃ ef et : MemSrv.EntityRow,
        MemSrv.entById db r.fromEntityId = some ef ∧
        MemSrv.entById db r.toEntityId = some et ∧
        rel.fromName = ef.name ∧ rel.toName = et.name ∧
        rel.relationType = r.relationType ∧
        (∀ s, bN = some s → s ≠ "" → s ≠ "*" →
          r.branchId = (MemSrv.getBranchId db (some s)).1) := by
  intro rel hrel
  simp only [MemSrv.searchEntities] at hrel ⊢
  by_cases hemp : ((MemSrv.performSearch db q bN st).1.map
      (fun r => r.entity)).isEmpty
  · rw [if_pos hemp] at hrel
    simp at hrel
  · rw [if_neg hemp] at hrel ⊢
    have hdb2 := relationScope_state (MemSrv.performSearch db q bN st).2 bN
    have hdbp := searchScope_state db bN
    have hent2 : (MemSrv.relationScope
        (MemSrv.performSearch db q bN st).2 bN).2.entities = db.entities := by
      rw [hdb2.1]
      exact hdbp.1
    have hrel2 : (MemSrv.relationScope
        (MemSrv.performSearch db q bN st).2 bN).2.relations = db.relations := by
      rw [hdb2.2]
      exact hdbp.2
    rcases mem_getRelationsForEntities hrel with
      ⟨r, hr, ef, et, hef, het, hfn, htn, hty, hin, hbr⟩
    rw [hrel2] at hr
    rw [entById_congr _ _ hent2 _] at hef het
    constructor
    · rcases hin with hin | hin
      · exact Or.inl (by rw [hfn]; exact contains_iff_mem.1 hin)
      · exact Or.inr (by rw [htn]; exact contains_iff_mem.1 hin)
    · refine ⟨r, hr, ef, et, hef, het, hfn, htn, hty, ?_⟩
      intro s hs hs1 hs2
      have hscope : (MemSrv.relationScope
          (MemSrv.performSearch db q bN st).2 bN).1 =
          some (MemSrv.getBranchId db (some s)).1 := by
        rw [hs]
        unfold MemSrv.relationScope
        dsimp only
        rw [if_pos hs1]
        have hpr2 : (MemSrv.performSearch db q (some s) st).2 =
            (MemSrv.getBranchId db (some s)).2 := by
          show (MemSrv.searchScope db (some s)).2 = _
          unfold MemSrv.searchScope
          dsimp only
          rw [if_pos ⟨hs1, hs2⟩]
        rw [hpr2, MemSrv.getBranchId_stable]
      exact hbr _ hscope

/-- C2 witness: the amended statement at the concrete store `dbAC` and
the relation it returns. -/
theorem searchEntities_relations_sound_witness :
    ("xalphax" ∈ ((MemSrv.searchEntities MemSrv.dbAC "alpha" (some "main")
        []).1.entities.map (fun e => e.name)) ∨
      "C" ∈ ((MemSrv.searchEntities MemSrv.dbAC "alpha" (some "main")
        []).1.entities.map (fun e => e.name))) :=
  (searchEntities_relations_sound MemSrv.dbAC "alpha" (some "main") []
    ⟨"xalphax", "C", "uses"⟩ (by decide)).1

/-!
## C4: branch scoping and status filtering of search
-/

/-- C4: searching a specific branch (nonempty, not `"*"`) returns only
entities of that branch, and every returned entity's status lies in the
requested status filter (defaulting to `{active}` when none is given);
with `"*"` the branch predicate is dropped and entities of several
branches are returned (shown on `dbTwoBranches`). -/
theorem searchEntities_branch_status :
    (∀ (db : MemSrv.DB) (q s : String) (st : List String), s ≠ "*" → s ≠ "" →
      ∀ e ∈ (MemSrv.searchEntities db q (some s) st).1.entities,
        e.branchId = (MemSrv.getBranchId db (some s)).1 ∧
          e.status ∈ MemSrv.effStatuses st) ∧
    ((MemSrv.searchEntities MemSrv.dbTwoBranches "shared" (some "*")
        []).1.entities.map (fun e => e.branchId)) = [1, 2] := by
  constructor
  · intro db q s st hs1 hs2 e he
    simp only [MemSrv.searchEntities] at he
    by_cases hemp : ((MemSrv.performSearch db q (some s) st).1.map
        (fun r => r.entity)).isEmpty
    · rw [if_pos hemp] at he
      simp at he
    · rw [if_neg hemp] at he
      replace he : e ∈ (MemSrv.performSearch db q (some s) st).1.map
        (fun r => r.entity) := he
      rcases List.mem_map.1 he with ⟨row, hrow, rfl⟩
      replace hrow : row ∈ MemSrv.executeEnhancedSearch
          (MemSrv.searchScope db (some s)).2 (MemSrv.prepareSearchTerms q)
          (MemSrv.searchScope db (some s)).1 st := hrow
      have hscope : MemSrv.searchScope db (some s) =
          (some (MemSrv.getBranchId db (some s)).1,
            (MemSrv.getBranchId db (some s)).2) := by
        unfold MemSrv.searchScope
        dsimp only
        rw [if_pos ⟨hs2, hs1⟩]
      rw [hscope] at hrow
      rcases MemSrv.mem_executeEnhancedSearch _ _ _ _ row hrow with
        ⟨y, hy, hye⟩
      have hfil : MemSrv.branchOk (some (MemSrv.getBranchId db (some s)).1)
            y.entity = true ∧
          (MemSrv.effStatuses st).contains y.entity.status = true := by
        rcases hy with hy | hy | hy
        · exact MemSrv.searchByKeywords_filters _ _ _ _ y hy
        · exact MemSrv.searchByFTS_filters _ _ _ _ y hy
        · exact MemSrv.searchByLike_filters _ _ _ _ y hy
      rw [hye]
      constructor
      · have := hfil.1
        unfold MemSrv.branchOk at this
        exact eq_of_beq this
      · exact contains_iff_mem.1 hfil.2
  · decide

/-- C4 witness: the specific-branch clause instantiated on
`dbTwoBranches`, query `shared`, branch `main`. -/
theorem searchEntities_branch_status_witness :
    (⟨1, "sharedx", "T", 1, "active", none, "", "", 0⟩ :
        MemSrv.EntityRow).branchId =
      (MemSrv.getBranchId MemSrv.dbTwoBranches (some "main")).1 ∧
    "active" ∈ MemSrv.effStatuses [] :=
  searchEntities_branch_status.1 MemSrv.dbTwoBranches "shared" "main" []
    (by decide) (by decide) ⟨1, "sharedx", "T", 1, "active", none, "", "", 0⟩
    (by decide)

/-!
## C5: ranking of the merged search results
-/

/-- C5 counterexample: on `dbTie` both entities merge to
`relevance_score 5`, and the result keeps them in strategy-encounter
order — `xalphax` (`last_accessed 1`) before `beta` (`last_accessed 2`) —
so the tie is **not** broken by `last_accessed` descending. -/
theorem executeEnhancedSearch_tie_not_by_lastAccessed :
    (MemSrv.executeEnhancedSearch MemSrv.dbTie ["alpha"] (some 1) []).map
      (fun r => (r.score, r.entity.lastAccessed)) = [(5, 1), (5, 2)] ∧
    ¬ List.Pairwise (fun a b : MemSrv.SearchRow =>
        a.score > b.score ∨ (a.score = b.score ∧
          a.entity.lastAccessed ≥ b.entity.lastAccessed))
      (MemSrv.executeEnhancedSearch MemSrv.dbTie ["alpha"] (some 1) []) := by
  refine ⟨by decide, by decide⟩

/-- C5 (amended): the merged search result list is sorted by
`relevance_score` descending and truncated to at most 50 entities; ties
keep the stable merge order (keyword, then FTS, then LIKE insertions),
with no `last_accessed` tie-break at the merge step. -/
theorem executeEnhancedSearch_ranking (db : MemSrv.DB) (terms : List String)
    (bid : Option Nat) (st : List String) :
    (MemSrv.executeEnhancedSearch db terms bid st).length ≤ 50 ∧
    List.Pairwise (fun a b : MemSrv.SearchRow => b.score ≤ a.score)
      (MemSrv.executeEnhancedSearch db terms bid st) := by
  unfold MemSrv.executeEnhancedSearch
  by_cases h : terms.isEmpty
  · rw [if_pos h]
    simp
  · rw [if_neg h]
    constructor
    · exact List.length_take_le _ _
    · exact (MemSrv.sortDescBy_pairwise _).sublist (List.take_sublist _ _)

/-!
## C6: the similarity detector
-/

/-- `determineConfidence` in ordinary rational notation. -/
theorem determineConfidence_eq (x : ℚ) :
    MemSrv.determineConfidence x =
      (if x ≥ 17 / 20 then .high else if x ≥ 3 / 4 then .medium else .low) := by
  unfold MemSrv.determineConfidence
  have h1 : mkRat 17 20 = (17 / 20 : ℚ) := by
    rw [Rat.mkRat_eq_div]
    norm_num
  have h2 : mkRat 3 4 = (3 / 4 : ℚ) := by
    rw [Rat.mkRat_eq_div]
    norm_num
  rw [h1, h2]

/-- C6: `detectSimilarEntities` returns at most 8 results sorted by
similarity descending; the score the source combines is exactly
`0.35·name + 0.20·type + 0.25·content + 0.15·pattern + 0.05·structural`
clamped to 1; every returned candidate has a name different from the
target's, its score strictly exceeds `SIMILARITY_THRESHOLD = 0.5`, and
its confidence is `high` when the score is ≥ 0.85, `medium` when ≥ 0.75,
else `low`. -/
theorem detectSimilarEntities_spec (tp : MemSrv.TextProcessorPrims)
    (target : MemSrv.SimEntity) (cands : List MemSrv.SimEntity) :
    (∀ e2 : MemSrv.SimEntity, MemSrv.weightedScore tp target e2 =
      7 / 20 * tp.sentenceSim target.name e2.name +
      1 / 5 * MemSrv.calculateTypeSimilarity tp target e2 +
      1 / 4 * MemSrv.calculateContentSimilarity tp target e2 +
      3 / 20 * tp.patternScore target.name e2.name +
      1 / 20 * MemSrv.calculateStructuralSimilarity target e2) ∧
    (MemSrv.detectSimilarEntities tp target cands).length ≤ 8 ∧
    List.Pairwise (fun a b : MemSrv.SimResult => b.similarity ≤ a.similarity)
      (MemSrv.detectSimilarEntities tp target cands) ∧
    ∀ r ∈ MemSrv.detectSimilarEntities tp target cands,
      r.entity.name ≠ target.name ∧
      r.similarity = min (MemSrv.weightedScore tp target r.entity) 1 ∧
      r.similarity > 1 / 2 ∧
      r.confidence = (if r.similarity ≥ 17 / 20 then .high
        else if r.similarity ≥ 3 / 4 then .medium else .low) := by
  refine ⟨?_, ?_, ?_, ?_⟩
  · intro e2
    unfold MemSrv.weightedScore
    rw [MemSrv.qAdd_eq, MemSrv.qAdd_eq, MemSrv.qAdd_eq, MemSrv.qAdd_eq,
      MemSrv.qMul_eq, MemSrv.qMul_eq, MemSrv.qMul_eq, MemSrv.qMul_eq,
      MemSrv.qMul_eq]
    have h1 : mkRat 7 20 = (7 / 20 : ℚ) := by rw [Rat.mkRat_eq_div]; norm_num
    have h2 : mkRat 1 5 = (1 / 5 : ℚ) := by rw [Rat.mkRat_eq_div]; norm_num
    have h3 : mkRat 1 4 = (1 / 4 : ℚ) := by rw [Rat.mkRat_eq_div]; norm_num
    have h4 : mkRat 3 20 = (3 / 20 : ℚ) := by rw [Rat.mkRat_eq_div]; norm_num
    have h5 : mkRat 1 20 = (1 / 20 : ℚ) := by rw [Rat.mkRat_eq_div]; norm_num
    rw [h1, h2, h3, h4, h5]
  · unfold MemSrv.detectSimilarEntities
    exact List.length_take_le 8 _
  · exact (MemSrv.sortDescBy_pairwise _).sublist (List.take_sublist _ _)
  · intro r hr
    unfold MemSrv.detectSimilarEntities at hr
    have hr1 := (List.take_sublist _ _).subset hr
    rw [MemSrv.mem_sortDescBy] at hr1
    rcases List.mem_filterMap.1 hr1 with ⟨c, _, hfc⟩
    by_cases hn : c.name = target.name
    · rw [if_pos hn] at hfc
      cases hfc
    · rw [if_neg hn] at hfc
      by_cases hs : MemSrv.calculateEntitySimilarity tp target c > mkRat 1 2
      · rw [if_pos hs] at hfc
        cases hfc
        have hhalf : mkRat 1 2 = (1 / 2 : ℚ) := by
          rw [Rat.mkRat_eq_div]
          norm_num
        refine ⟨hn, rfl, ?_, ?_⟩
        · rw [← hhalf]
          exact hs
        · exact determineConfidence_eq _
      · rw [if_neg hs] at hfc
        cases hfc

/-- The constant text processor used to instantiate the detector
concretely. -/
def tpOne : MemSrv.TextProcessorPrims :=
  ⟨fun _ _ => 1, fun _ _ => 1, fun _ _ => 1⟩

/-- C6 witness: the per-result clause at a concrete target, candidate and
text processor. -/
theorem detectSimilarEntities_spec_witness :
    (⟨⟨"b", "T", ["o"], some "active"⟩, mkRat 197 200, .high, "similar_to"⟩ :
        MemSrv.SimResult).entity.name ≠ "a" :=
  ((detectSimilarEntities_spec tpOne ⟨"a", "T", ["o"], some "active"⟩
      [⟨"b", "T", ["o"], some "active"⟩]).2.2.2 _ (by decide)).1

/-!
## C7: idempotence of optimize
-/

/-- No two adjacent whitespace characters. -/
def noWsPair (a b : Char) : Prop := ¬ (MemSrv.isJsWs a = true ∧ MemSrv.isJsWs b = true)

/-- The head, when present, is not whitespace. -/
def HeadNotWs (l : List Char) : Prop :=
  ∀ c, l.head? = some c → MemSrv.isJsWs c = false

theorem collapse_only_space :
    ∀ (l : List Char) (b : Bool) (c : Char), c ∈ MemSrv.collapseWsAux b l →
      MemSrv.isJsWs c = true → c = ' ' := by
  intro l
  induction l with
  | nil => intro b c hc; simp [MemSrv.collapseWsAux] at hc
  | cons x rest ih =>
      intro b c hc hws
      rw [MemSrv.collapseWsAux] at hc
      by_cases hx : MemSrv.isJsWs x
      · rw [if_pos hx] at hc
        by_cases hb : b
        · rw [if_pos hb] at hc
          exact ih true c hc hws
        · rw [if_neg hb] at hc
          rcases List.mem_cons.1 hc with rfl | hc
          · rfl
          · exact ih true c hc hws
      · rw [if_neg hx] at hc
        rcases List.mem_cons.1 hc with rfl | hc
        · rw [hws] at hx
          exact absurd rfl hx
        · exact ih false c hc hws

theorem collapse_chain :
    ∀ (l : List Char) (b : Bool),
      List.Chain' noWsPair (MemSrv.collapseWsAux b l) ∧
        (b = true → HeadNotWs (MemSrv.collapseWsAux b l)) := by
  intro l
  induction l with
  | nil =>
      intro b
      constructor
      · simp [MemSrv.collapseWsAux]
      · intro _ c hc
        simp [MemSrv.collapseWsAux] at hc
  | cons x rest ih =>
      intro b
      rw [MemSrv.collapseWsAux]
      by_cases hx : MemSrv.isJsWs x
      · rw [if_pos hx]
        by_cases hb : b
        · subst hb
          rw [if_pos rfl]
          exact ih true
        · rw [if_neg hb]
          constructor
          · rw [List.chain'_cons']
            refine ⟨?_, (ih true).1⟩
            intro y hy
            have hhead := (ih true).2 rfl y hy
            intro hpair
            rw [hhead] at hpair
            exact absurd hpair.2 (by simp)
          · intro hb'
            intro c hc
            cases hc
            exact absurd hb' hb
      · rw [if_neg hx]
        constructor
        · rw [List.chain'_cons']
          refine ⟨?_, (ih false).1⟩
          intro y _
          intro hpair
          exact hx hpair.1
        · intro _ c hc
          cases hc
          cases hxx : MemSrv.isJsWs x
          · rfl
          · exact absurd hxx hx

theorem replaceNNGo_no_nl :
    ∀ (fuel : Nat) (l : List Char), '\n' ∉ l →
      MemSrv.replaceNNGo fuel l = l := by
  intro fuel
  induction fuel with
  | zero => intro l _; rfl
  | succ n ih =>
      intro l hl
      cases l with
      | nil => rfl
      | cons c rest =>
          rw [MemSrv.replaceNNGo]
          have hc : ¬ c = '\n' := by
            intro h
            exact hl (h ▸ List.mem_cons_self _ _)
          rw [if_neg hc]
          rw [ih rest (fun h => hl (List.mem_cons_of_mem _ h))]

theorem replaceNN_no_nl (l : List Char) (hl : '\n' ∉ l) :
    MemSrv.replaceNN l = l :=
  replaceNNGo_no_nl l.length l hl

theorem dropWhile_headOk (l : List Char) :
    HeadNotWs (l.dropWhile MemSrv.isJsWs) := by
  induction l with
  | nil => intro c hc; cases hc
  | cons x rest ih =>
      by_cases hx : MemSrv.isJsWs x
      · rw [List.dropWhile_cons_of_pos hx]
        exact ih
      · rw [List.dropWhile_cons_of_neg hx]
        intro c hc
        cases hc
        cases hxx : MemSrv.isJsWs x
        · rfl
        · exact absurd hxx hx

theorem chain'_dropWhile {R : Char → Char → Prop} {p : Char → Bool} :
    ∀ {l : List Char}, List.Chain' R l → List.Chain' R (l.dropWhile p) := by
  intro l
  induction l with
  | nil => intro h; exact h
  | cons x rest ih =>
      intro h
      by_cases hx : p x
      · rw [List.dropWhile_cons_of_pos hx]
        exact ih (List.chain'_cons'.1 h).2
      · rw [List.dropWhile_cons_of_neg hx]
        exact h

theorem mem_trimRight {x : Char} :
    ∀ {l : List Char}, x ∈ MemSrv.trimRight l → x ∈ l := by
  intro l
  induction l with
  | nil => intro h; exact h
  | cons c rest ih =>
      intro h
      rw [MemSrv.trimRight] at h
      cases hr : MemSrv.trimRight rest with
      | nil =>
          rw [hr] at h
          by_cases hc : MemSrv.isJsWs c
          · rw [if_pos hc] at h
            cases h
          · rw [if_neg hc] at h
            rcases List.mem_singleton.1 h with rfl
            exact List.mem_cons_self _ _
      | cons y ys =>
          rw [hr] at h
          rcases List.mem_cons.1 h with rfl | h
          · exact List.mem_cons_self _ _
          · exact List.mem_cons_of_mem _ (ih (hr ▸ h))

theorem trimRight_head {c : Char} :
    ∀ {l : List Char}, (MemSrv.trimRight l).head? = some c →
      l.head? = some c := by
  intro l
  cases l with
  | nil => intro h; cases h
  | cons x rest =>
      intro h
      rw [MemSrv.trimRight] at h
      cases hr : MemSrv.trimRight rest with
      | nil =>
          rw [hr] at h
          by_cases hx : MemSrv.isJsWs x
          · rw [if_pos hx] at h
            cases h
          · rw [if_neg hx] at h
            cases h
            rfl
      | cons y ys =>
          rw [hr] at h
          cases h
          rfl

theorem chain'_trimRight {R : Char → Char → Prop} :
    ∀ {l : List Char}, List.Chain' R l → List.Chain' R (MemSrv.trimRight l) := by
  intro l
  induction l with
  | nil => intro h; exact h
  | cons x rest ih =>
      intro h
      rw [MemSrv.trimRight]
      cases hr : MemSrv.trimRight rest with
      | nil =>
          by_cases hx : MemSrv.isJsWs x
          · rw [if_pos hx]
            exact List.chain'_nil
          · rw [if_neg hx]
            simp
      | cons y ys =>
          rw [List.chain'_cons']
          constructor
          · intro z hz
            cases hz
            have : rest.head? = some y := trimRight_head (by rw [hr]; rfl)
            have hxy := (List.chain'_cons'.1 h).1 y this
            exact hxy
          · rw [← hr]
            exact ih (List.chain'_cons'.1 h).2

theorem trimRight_idem : ∀ (l : List Char),
    MemSrv.trimRight (MemSrv.trimRight l) = MemSrv.trimRight l := by
  intro l
  induction l with
  | nil => rfl
  | cons x rest ih =>
      rw [MemSrv.trimRight]
      cases hr : MemSrv.trimRight rest with
      | nil =>
          by_cases hx : MemSrv.isJsWs x
          · rw [if_pos hx]
            rfl
          · rw [if_neg hx]
            rw [MemSrv.trimRight]
            rw [show MemSrv.trimRight [] = [] from rfl]
            rw [if_neg hx]
      | cons y ys =>
          rw [MemSrv.trimRight]
          rw [hr] at ih
          rw [ih]

theorem headOk_dropWhile_id (l : List Char) (h : HeadNotWs l) :
    l.dropWhile MemSrv.isJsWs = l := by
  cases l with
  | nil => rfl
  | cons x rest =>
      have hx := h x rfl
      rw [List.dropWhile_cons_of_neg (by rw [hx]; exact Bool.false_ne_true)]

theorem collapse_id_aux :
    ∀ (n : Nat) (l : List Char) (b : Bool), l.length ≤ n →
      (∀ c ∈ l, MemSrv.isJsWs c = true → c = ' ') →
      List.Chain' noWsPair l →
      (b = true → HeadNotWs l) →
      MemSrv.collapseWsAux b l = l := by
  intro n
  induction n with
  | zero =>
      intro l b hlen _ _ _
      rw [List.length_eq_zero.1 (Nat.le_zero.1 hlen)]
      cases b <;> rfl
  | succ n ih =>
      intro l b hlen hspace hchain hhead
      cases l with
      | nil => cases b <;> rfl
      | cons x rest =>
          rw [MemSrv.collapseWsAux]
          by_cases hx : MemSrv.isJsWs x
          · have hb : b = false := by
              cases b
              · rfl
              · have := hhead rfl x rfl
                rw [hx] at this
                cases this
            rw [if_pos hx, hb, if_neg (by simp)]
            have hxsp : x = ' ' := hspace x (List.mem_cons_self _ _) hx
            have hrest : MemSrv.collapseWsAux true rest = rest := by
              cases rest with
              | nil => rfl
              | cons y ys =>
                  have hy : MemSrv.isJsWs y = false := by
                    have hpair := (List.chain'_cons'.1 hchain).1 y rfl
                    unfold noWsPair at hpair
                    cases hyy : MemSrv.isJsWs y
                    · rfl
                    · exact absurd ⟨hx, hyy⟩ hpair
                  apply ih (y :: ys) true
                  · have := Nat.le_of_succ_le_succ hlen
                    exact this
                  · intro c hc hcw
                    exact hspace c (List.mem_cons_of_mem _ hc) hcw
                  · exact (List.chain'_cons'.1 hchain).2
                  · intro _ c hc
                    cases hc
                    exact hy
            rw [hrest, hxsp]
          · rw [if_neg hx]
            have hrest : MemSrv.collapseWsAux false rest = rest := by
              apply ih rest false
              · exact Nat.le_of_succ_le_succ hlen
              · intro c hc hcw
                exact hspace c (List.mem_cons_of_mem _ hc) hcw
              · exact (List.chain'_cons'.1 hchain).2
              · intro h
                cases h
            rw [hrest]

/-- C7 counterexample: at the `balanced` level a second application can
drop further filler words.  In `"x and with y"` the filler `and` is kept
because its neighbour `with` counts as important (cleaned length 4 > 3),
but `with` itself is a filler and is dropped; re-running the optimizer on
the output `"x and y"` now drops `and` too, yielding `"x y"`. -/
theorem optimize_balanced_not_idempotent :
    MemSrv.optimizeText .balanced "x and with y" = "x and y" ∧
    MemSrv.optimizeText .balanced
      (MemSrv.optimizeText .balanced "x and with y") = "x y" ∧
    ¬ (MemSrv.optimizeText .balanced
        (MemSrv.optimizeText .balanced "x and with y") =
      MemSrv.optimizeText .balanced "x and with y") := by
  refine ⟨by decide, by decide, by decide⟩

/-- C7 (amended): `optimize` is idempotent at the `minimal` level — for
every input, re-optimizing the optimized output returns it unchanged —
while at the `balanced` level idempotence fails
(`optimize_balanced_not_idempotent`). -/
theorem optimizeText_minimal_idem (s : String) :
    MemSrv.optimizeText .minimal (MemSrv.optimizeText .minimal s) =
      MemSrv.optimizeText .minimal s := by
  show MemSrv.minimalCompression (MemSrv.minimalCompression s) =
    MemSrv.minimalCompression s
  have hu_space := collapse_only_space s.data false
  have hu_chain := (collapse_chain s.data false).1
  have hu_nl : '\n' ∉ MemSrv.collapseWs s.data := by
    intro h
    have := hu_space '\n' h (by decide)
    cases this
  set u := MemSrv.collapseWs s.data with hu
  have hrepl : MemSrv.replaceNN u = u := replaceNN_no_nl u hu_nl
  have ht : MemSrv.jsTrimList (MemSrv.replaceNN u) =
      MemSrv.trimRight (u.dropWhile MemSrv.isJsWs) := by
    rw [hrepl]
    rfl
  set t := MemSrv.trimRight (u.dropWhile MemSrv.isJsWs) with htdef
  have ht_space : ∀ c ∈ t, MemSrv.isJsWs c = true → c = ' ' := by
    intro c hc
    exact hu_space c ((List.dropWhile_sublist _).subset (mem_trimRight hc))
  have ht_chain : List.Chain' noWsPair t :=
    chain'_trimRight (chain'_dropWhile hu_chain)
  have ht_head : HeadNotWs t := by
    intro c hc
    exact dropWhile_headOk u c (trimRight_head hc)
  have ht_nl : '\n' ∉ t := by
    intro h
    have := ht_space '\n' h (by decide)
    cases this
  have hcol : MemSrv.collapseWs t = t :=
    collapse_id_aux t.length t false (Nat.le_refl _) ht_space ht_chain
      (fun h => by cases h)
  have hrepl2 : MemSrv.replaceNN t = t := replaceNN_no_nl t ht_nl
  have htrim2 : MemSrv.jsTrimList t = t := by
    show MemSrv.trimRight (t.dropWhile MemSrv.isJsWs) = t
    rw [headOk_dropWhile_id t ht_head, htdef]
    exact trimRight_idem _
  show (MemSrv.jsTrimList (MemSrv.replaceNN (MemSrv.collapseWs
      (MemSrv.minimalCompression s).data))).asString =
    MemSrv.minimalCompression s
  have hdata : (MemSrv.minimalCompression s).data = t := by
    show (MemSrv.jsTrimList (MemSrv.replaceNN u)).asString.data = t
    rw [ht]
    rfl
  rw [hdata, hcol, hrepl2, htrim2]
  show t.asString = MemSrv.minimalCompression s
  rw [show MemSrv.minimalCompression s = (MemSrv.jsTrimList
    (MemSrv.replaceNN u)).asString from rfl, ht]

/-- C8 counterexample: the claim asserts `jaccard(A, ∅) = 0` for every set
`A`, but the source returns `1` when both arguments are empty, so the claim
fails at `A = ∅`. -/
theorem calculateSetSimilarity_empty_empty_ne_zero :
    MemSrv.calculateSetSimilarity ∅ ∅ = 1 ∧
      ¬ MemSrv.calculateSetSimilarity ∅ ∅ = 0 := by
  constructor
  · simp [MemSrv.calculateSetSimilarity]
  · simp [MemSrv.calculateSetSimilarity]

/-- C8 (amended): `jaccard(A,A) = 1`; `jaccard(A,∅) = 0` for nonempty `A`
(while `jaccard(∅,∅) = 1`); and `jaccard` is symmetric. -/
theorem calculateSetSimilarity_algebra :
    (∀ A : Finset String, MemSrv.calculateSetSimilarity A A = 1) ∧
    (∀ A : Finset String, A ≠ ∅ → MemSrv.calculateSetSimilarity A ∅ = 0) ∧
    (∀ A B : Finset String,
      MemSrv.calculateSetSimilarity A B = MemSrv.calculateSetSimilarity B A) := by
  refine ⟨?_, ?_, ?_⟩
  · intro A
    by_cases h : A.card = 0
    · simp [MemSrv.calculateSetSimilarity, h]
    · have hA : (A.card : ℚ) ≠ 0 := by exact_mod_cast h
      simp [MemSrv.calculateSetSimilarity, h, Finset.inter_self, Finset.union_self,
        div_self hA]
  · intro A hA
    have h : A.card ≠ 0 := by
      simpa [Finset.card_eq_zero] using hA
    simp [MemSrv.calculateSetSimilarity, h]
  · intro A B
    by_cases h1 : A.card = 0 <;> by_cases h2 : B.card = 0 <;>
      simp [MemSrv.calculateSetSimilarity, h1, h2, Finset.inter_comm,
        Finset.union_comm, and_comm, or_comm]

/-- C8 witness: the amended nonempty-set clause at `A = {"a"}`. -/
theorem calculateSetSimilarity_algebra_witness :
    MemSrv.calculateSetSimilarity {"a"} ∅ = 0 :=
  calculateSetSimilarity_algebra.2.1 {"a"} (by decide)
